import Mathlib

/-!
Verification development for the `web3-batch-call` batching engine.

The repository contains two variants of the engine:

* `src/unnamed/part_000` — the block-sampling variant (`blockHeight` /
  `blockResolution` options, constant-read filtering via `readContracts`,
  `flattenArgs` post-processing).  It is embedded in namespace `P0`.
* `src/batchCall.js` — the plain variant (single optional `blockNumber`,
  inline ABI cache `abiHashByAddress` / `abiByHash`, etherscan `fetchAbi`).
  It is embedded in namespace `BC`.

Modelling conventions:

* JavaScript strings are `String`, addresses are `String`, block numbers
  are `Int` (the loop `currentBlockNumber - iterator` may go below zero).
* A JavaScript object used as a string-keyed dictionary is an association
  list `List (String × β)`; assignment is `setKey` (overwrite in place,
  or append a fresh key at the end), which matches JS object key order.
* `undefined`-or-present optional values are `Option _`; JS string
  truthiness (`undefined`, `""` falsy) is `jsTruthyStr`.
* The network collaborators are oracles inside `Web3Env`:
  `transport` answers one RPC call (`Except` error = the callback's `err`
  argument), `encodeCall` is `web3.eth.abi.encodeFunctionCall`.  The
  engine never inspects their internals, so theorems quantify over them.
* The asynchronous pipeline of `execute` is deterministic: all closures
  run synchronously down to their first `await`, the single
  `batch.execute()` flush happens afterwards, and every promise
  continuation (in particular every `readContracts[address] = true`
  write) runs strictly after the whole synchronous expansion phase.  The
  embedding therefore threads state through explicit sequential phases.
-/

/-- JS truthiness of a possibly-undefined string value: `undefined` and the
empty string are falsy, every other string is truthy. -/
def jsTruthyStr : Option String → Bool
  | none => false
  | some s => s ≠ ""

/-- Lookup in a JS-object-as-dictionary (first binding of the key). -/
def lookupKey (m : List (String × β)) (k : String) : Option β :=
  (m.find? (fun p => p.1 = k)).map (fun p => p.2)

/-- JS object assignment `obj[k] = v`: overwrite the existing binding in
place, or append the new key at the end. -/
def setKey (k : String) (v : β) : List (String × β) → List (String × β)
  | [] => [(k, v)]
  | p :: rest => if p.1 = k then (k, v) :: rest else p :: setKey k v rest

/-- Adding a key to a JS object used as a set (`obj[a] = true`). -/
def insertAddr (l : List String) (a : String) : List String :=
  if a ∈ l then l else l ++ [a]

/-- One entry of a contract ABI.  Only the parts the engine reads are
kept: the field name (optional in real ABIs), the declared input and
output counts (`_.size(inputs)` / `_.size(outputs)` is all the code
uses), `stateMutability` and the `constant` flag. -/
structure AbiField where
  name : Option String
  inputs : Nat
  outputs : Nat
  stateMutability : String
  constant : Bool
deriving DecidableEq, Repr

/-- An ABI is an ordered sequence of field descriptors. -/
abbrev Abi := List AbiField

/-- A caller-supplied method spec `{ name, args, constant }` from a
group's `readMethods` (the `constant` key is read by the part_000
variant's `filterOutConstants`). -/
structure MethodSpec where
  name : String
  args : Option (List String)
  constant : Bool
deriving DecidableEq, Repr

/-- A contract group of a batch request, in its `addresses` form (the
`contracts` form carrying pre-bound handles is not exercised by any
claim).  `abi` is the group-level ABI used by the cache warm-up loop of
`src/batchCall.js`; `nspace` is the JS `namespace` key (a Lean keyword). -/
structure ContractGroup where
  addresses : List String
  nspace : String
  readMethods : List MethodSpec
  allReadMethods : Bool
  abi : Option Abi
deriving DecidableEq, Repr

/-- The external collaborators of the engine: the chain head oracle, the
per-call transport (`methodCall.request` + its callback, `Except.error`
is the callback's `err`), and the ABI call-data encoder. -/
structure Web3Env where
  currentBlockNumber : Int
  transport : String → String → List String → Option Int → Except String String
  encodeCall : AbiField → List String → String

/-- One registered request of the network batch: `batch.add(req)` for a
given address, method name, applied arguments and target block (`none` =
chain head, only possible in the `BC` variant). -/
structure CallDesc where
  address : String
  methodName : String
  args : List String
  blockNumber : Option Int
deriving DecidableEq, Repr

/-- One per-block sample resolved by `addBlockToBatch` of part_000:
`value` is `none` when the transport reported an error (the callback
then resolves with `data` still `undefined`). -/
structure BlockVal where
  value : Option String
  blockNumber : Int
deriving DecidableEq, Repr

/-- The value a resolved method promise carries, generic in the payload:
`List BlockVal` for the part_000 variant (`values`), a single `String`
for the batchCall.js variant (`value`). -/
structure MethodResultG (α : Type) where
  input : Option String
  method : String
  val : α
  args : Option (List String)
  address : String
deriving DecidableEq, Repr

/-- The per-address intermediate `{ address, namespace, state }` record
built by `addAddressToBatch` (a `none` entry in `state` is the
`Promise.resolve()` of a skipped method). -/
structure AddressCallG (α : Type) where
  address : String
  nspace : String
  state : List (Option (MethodResultG α))
deriving DecidableEq, Repr

/-- One argument-signature bucket of a result node (`{ values|value,
input?, args? }` after the `delete` statements: `input = none` /
`args = none` mean the key was deleted). -/
structure BucketG (α : Type) where
  val : α
  input : Option String
  args : Option (List String)
deriving DecidableEq, Repr

/-- One address node of the flat ResultTree, before post-processing. -/
structure NodeG (α : Type) where
  address : String
  nspace : String
  state : List (String × List (BucketG α))
deriving DecidableEq, Repr

/-- Replace the first node with the given address (`_.find(acc, address)`
returns a live reference which the JS code mutates in place). -/
def updateFirstNode (address : String) (f : NodeG α → NodeG α) :
    List (NodeG α) → List (NodeG α)
  | [] => []
  | n :: rest =>
      if n.address = address then f n :: rest
      else n :: updateFirstNode address f rest

/-- Readable-with-no-arguments predicate of `getReadableAbiFields`
(src/batchCall.js lines 271-288, identical logic behind the part_000
store): zero inputs, at least one output, a truthy name, and
`stateMutability == "view"`. -/
def readableField (f : AbiField) : Option String :=
  match f.name with
  | none => none
  | some nm =>
      if f.inputs = 0 && 0 < f.outputs && nm ≠ "" && f.stateMutability = "view"
      then some nm else none

/-- The `getReadableAbiFields` accumulator loop, as a `filterMap`. -/
def getReadableAbiFields (abi : Abi) : List String :=
  abi.filterMap readableField

/-- The bucket a method result is folded in as (`methodArg` with its
`input` / `args` keys deleted when falsy). -/
def resultBucket (r : MethodResultG α) : BucketG α :=
  { val := r.val,
    input := if jsTruthyStr r.input then r.input else none,
    args := r.args }

/-- The state update `addMethodResults` performs on an already-existing
address node: append the bucket to the method's bucket list when no
bucket with the same truthy `input` exists, then, when `input` is falsy,
overwrite the method entry with just this bucket. -/
def mergeBucketState (r : MethodResultG α) (st : List (String × List (BucketG α))) :
    List (String × List (BucketG α)) :=
  let methodArgs := (lookupKey st r.method).getD []
  let existing :=
    if jsTruthyStr r.input then
      methodArgs.find? (fun b => b.input = r.input)
    else none
  let st1 :=
    if existing.isNone then
      setKey r.method (methodArgs ++ [resultBucket r]) st
    else st
  if jsTruthyStr r.input then st1 else setKey r.method [resultBucket r] st1

/-- A brand-new address node appended by `addMethodResults`. -/
def freshNode (address nspace : String) (r : MethodResultG α) : NodeG α :=
  { address := address, nspace := nspace, state := [(r.method, [resultBucket r])] }

/-- The `formatContractsState` accumulator step `addMethodResults`
(both variants share this code shape; generic in the value payload).
A falsy `result` (skipped method) leaves the accumulator unchanged. -/
def applyMethodResultG (address nspace : String) (acc : List (NodeG α)) :
    Option (MethodResultG α) → List (NodeG α)
  | none => acc
  | some r =>
      match acc.find? (fun n => n.address = address) with
      | none => acc ++ [freshNode address nspace r]
      | some node =>
          updateFirstNode address (fun n =>
            { address := n.address, nspace := n.nspace,
              state := mergeBucketState r node.state }) acc

/-- Folding one address call's `state` into the accumulator
(`_.each(state, addMethodResults.bind(null, address, namespace))`). -/
def formatAddressCall (acc : List (NodeG α)) (ac : AddressCallG α) : List (NodeG α) :=
  ac.state.foldl (applyMethodResultG ac.address ac.nspace) acc

/-- The full `_.reduce(contractsPromiseResult, formatContractsState, [])`
fold over the per-group lists of address calls. -/
def formatContractsState (res : List (List (AddressCallG α))) : List (NodeG α) :=
  res.foldl (fun acc cfg => cfg.foldl formatAddressCall acc) []

/-- First-occurrence key deduplication, matching the key order of
`_.groupBy` / object-key iteration order of the reduce over it. -/
def dedupKeysAux (seen : List String) : List String → List String
  | [] => []
  | a :: l =>
      if a ∈ seen then dedupKeysAux seen l
      else a :: dedupKeysAux (a :: seen) l

/-- Keys of `_.groupBy(list, "namespace")` in first-appearance order. -/
def dedupKeys (l : List String) : List String :=
  dedupKeysAux [] l

/-- Decimal value of a digit sequence (most significant first). -/
def digitsToNat : List Char → Nat → Nat
  | [], acc => acc
  | c :: cs, acc => digitsToNat cs (acc * 10 + (c.toNat - 48))

/-- Whether a string is an array-index-like property key in JavaScript:
the canonical decimal form (all digits, no leading zero except "0"
itself) of an integer below 2^32 - 1.  Such keys are enumerated before
all other own string keys, in ascending numeric order. -/
def isArrayIndexKey (s : String) : Bool :=
  match s.toList with
  | [] => false
  | c :: cs =>
      (c :: cs).all Char.isDigit &&
      (!(c = '0') || cs.isEmpty) &&
      digitsToNat (c :: cs) 0 < 4294967295

/-- The numeric value an array-index-like key sorts by. -/
def numKeyVal (s : String) : Nat :=
  digitsToNat s.toList 0

/-- The own-key enumeration order of a JavaScript object whose keys were
created in the order of the given list: array-index-like keys first in
ascending numeric order, then the remaining string keys in insertion
(first-appearance) order.  `_.groupBy` builds its bucket object by first
appearance and `_.reduce` / `Object.keys` then enumerate it in this
order. -/
def jsOwnKeys (l : List String) : List String :=
  (dedupKeys (l.filter isArrayIndexKey)).insertionSort
      (fun a b => numKeyVal a ≤ numKeyVal b) ++
    dedupKeys (l.filter (fun k => !(isArrayIndexKey k)))

namespace P0

/-- Method result payload of the block-sampling variant: the ordered
per-block samples (`values`). -/
abbrev MethodResult := MethodResultG (List BlockVal)

/-- The `while (blockNumberIterator < blockHeight)` loop of
`src/unnamed/part_000` lines 56-62, pushing
`currentBlockNumber - blockNumberIterator` and stepping the iterator by
`blockResolution`.  The structural `fuel` argument bounds the number of
iterations; `blockHeight` is always enough fuel when
`blockResolution ≥ 1` since the iterator grows by at least one per
round (for `blockResolution = 0` the JS loop never terminates, a case
no claim reaches). -/
def buildBlocksLoop (current : Int) (blockHeight blockResolution : Nat) :
    Nat → Nat → List Int
  | 0, _ => []
  | fuel + 1, it =>
      if it < blockHeight then
        (current - it) :: buildBlocksLoop current blockHeight blockResolution fuel (it + blockResolution)
      else []

/-- The full blocks construction: run the loop from iterator `0`, then
`blocks = _.reverse(blocks)` so samples are oldest-to-newest. -/
def buildBlocks (current : Int) (blockHeight blockResolution : Nat) : List Int :=
  (buildBlocksLoop current blockHeight blockResolution blockHeight 0).reverse

/-- The block-sample sequence as claim C1 words it: "stepping backward
by blockResolution for blockHeight iterations, then reversing".  This
definition follows the claim's words, to be compared with `buildBlocks`
which follows the source. -/
def claimedBlocks (current : Int) (blockHeight blockResolution : Nat) : List Int :=
  ((List.range blockHeight).map (fun k => current - k * blockResolution)).reverse

/-- The `filterOutConstants` closure (part_000 lines 120-127): a method
survives unless its spec carries a truthy `constant` flag and the
address is already marked in `readContracts`. -/
def filterOutConstants (readContracts : List String) (address : String)
    (m : MethodSpec) : Bool :=
  !(m.constant && readContracts.contains address)

/-- The synchronous body of `addMethodToBatch` (part_000 lines 182-225):
resolve the ABI field by name (skip silently when absent), truncate the
supplied args to the declared arity (`_.take(args, nbrAbiArgsForMethod)`,
with `_.take(undefined, n) = []`), compute the encoded `input` only when
`args` was supplied, and register one request per entry of `blocks`.
Returns the resolved method promise value and the registered requests;
each per-block value is the transport answer (`none` on a per-call
error, where the callback logs and resolves with `data` undefined). -/
def addMethodToBatch (env : Web3Env) (blocks : List Int) (abi : Abi)
    (address : String) (m : MethodSpec) : Option MethodResult × List CallDesc :=
  match abi.find? (fun f => f.name = some m.name) with
  | none => (none, [])
  | some fld =>
      let newArgs := (m.args.getD []).take fld.inputs
      let input := m.args.map (fun _ => env.encodeCall fld newArgs)
      let pairs := blocks.map (fun b =>
        (CallDesc.mk address m.name newArgs (some b),
         BlockVal.mk (env.transport address m.name newArgs (some b)).toOption b))
      (some { input := input, method := m.name, val := pairs.map (fun p => p.2),
              args := m.args, address := address },
       pairs.map (fun p => p.1))

/-- The synchronous body of `addAddressToBatch` (part_000 lines 88-141):
look the ABI up in the store, build the effective method list
(`readMethods` plus, when `allReadMethods`, the readable fields), apply
`filterOutConstants` against the readContracts state as of the start of
`execute` (the `readContracts[address] = true` writes run only after the
batch's network callbacks), and process every surviving method.  The
store is the `AbiStorage` cache after warm-up, abstracted as a total
lookup. -/
def addAddressToBatch (env : Web3Env) (blocks : List Int)
    (cache : String → Abi) (readContracts : List String)
    (readMethods : List MethodSpec) (allReadMethods : Bool) (nspace : String)
    (address : String) : AddressCallG (List BlockVal) × List CallDesc :=
  let abi := cache address
  let autos :=
    if allReadMethods then
      (getReadableAbiFields abi).map (fun n => MethodSpec.mk n none false)
    else []
  let allMethods := (readMethods ++ autos).filter (filterOutConstants readContracts address)
  let pairs := allMethods.map (addMethodToBatch env blocks abi address)
  ({ address := address, nspace := nspace, state := pairs.map (fun p => p.1) },
   pairs.flatMap (fun p => p.2))

/-- The `addContractToBatch` closure (part_000 lines 66-85): process
every address of the group. -/
def addContractToBatch (env : Web3Env) (blocks : List Int)
    (cache : String → Abi) (readContracts : List String) (g : ContractGroup) :
    List (AddressCallG (List BlockVal)) × List CallDesc :=
  let pairs := g.addresses.map
    (addAddressToBatch env blocks cache readContracts g.readMethods g.allReadMethods g.nspace)
  (pairs.map (fun p => p.1), pairs.flatMap (fun p => p.2))

/-- The whole synchronous expansion phase
(`contractsBatch.map(addContractToBatch.bind(null, batch))`): every
group is expanded against the same initial `readContracts` state,
because the state updates are promise continuations that run only after
`batch.execute()`. -/
def expandGroups (env : Web3Env) (blocks : List Int) (cache : String → Abi)
    (readContracts : List String) (groups : List ContractGroup) :
    List (List (AddressCallG (List BlockVal))) × List CallDesc :=
  let pairs := groups.map (addContractToBatch env blocks cache readContracts)
  (pairs.map (fun p => p.1), pairs.flatMap (fun p => p.2))

/-- The deferred `readContracts[address] = true` updates (part_000 lines
135 and 217): after the callbacks, every address of every group is
marked (line 135 marks unconditionally; line 217 marks a subset). -/
def updateReadContracts (readContracts : List String)
    (groups : List ContractGroup) : List String :=
  groups.foldl (fun rc g => g.addresses.foldl insertAddr rc) readContracts

/-- One bucket after the in-place mutation of `flattenVal` (part_000
lines 308-315): `values = none` means the key was deleted, and
`value = some v` means the `value` key was set (to the single block
sample's possibly-undefined value). -/
structure FlatBucket where
  values : Option (List BlockVal)
  value : Option (Option String)
  input : Option String
  args : Option (List String)
deriving DecidableEq, Repr

/-- The possible shapes of a method entry after `flattenArgs`: still the
bucket array, collapsed to a single scalar, collapsed to the per-block
list, or `undefined` (the bucket's `values` key was already deleted when
the fallback `_.get(values, "[0].values")` ran). -/
inductive FlatEntry where
  | arr : List FlatBucket → FlatEntry
  | scalar : String → FlatEntry
  | blockVals : List BlockVal → FlatEntry
  | undef : FlatEntry
deriving DecidableEq, Repr

/-- An address node after `flattenArgs`. -/
structure FlatNode where
  address : String
  nspace : String
  state : List (String × FlatEntry)
deriving DecidableEq, Repr

/-- The per-bucket mutation of `flattenVal`: when the bucket holds
exactly one block sample, replace `values` with `value` (deleting
`values`). -/
def flattenVal (b : BucketG (List BlockVal)) : FlatBucket :=
  match b.val with
  | [bv] => { values := none, value := some bv.value, input := b.input, args := b.args }
  | vs => { values := some vs, value := none, input := b.input, args := b.args }

/-- The fallback assignment `contract[key] = _.get(values, "[0].values")`
of part_000 line 324. -/
def flattenFallback (b0 : FlatBucket) : FlatEntry :=
  match b0.values with
  | some vs => FlatEntry.blockVals vs
  | none => FlatEntry.undef

/-- One method entry processed by the `flattenArg` closure (part_000
lines 306-333): mutate each bucket with `flattenVal`, then, when
`simplifyResponse` is on and the entry has exactly one
argument-signature bucket, collapse the whole entry to that bucket's
`value` if it is truthy, falling back to the bucket's (possibly already
deleted) `values`. -/
def flattenEntry (simplifyResponse : Bool) (bl : List (BucketG (List BlockVal))) : FlatEntry :=
  let mutated := bl.map flattenVal
  if bl.length = 1 && simplifyResponse then
    match mutated with
    | [b0] =>
        match b0.value with
        | some (some s) => if s = "" then flattenFallback b0 else FlatEntry.scalar s
        | _ => flattenFallback b0
    | _ => FlatEntry.arr mutated
  else FlatEntry.arr mutated

/-- The `flattenArgs` post-processing of one address node (part_000
lines 305-336).  The `address` and `namespace` keys are strings, skipped
by the `valuesIsArr` guard. -/
def flattenArgs (simplifyResponse : Bool) (n : NodeG (List BlockVal)) : FlatNode :=
  { address := n.address, nspace := n.nspace,
    state := n.state.map (fun p => (p.1, flattenEntry simplifyResponse p.2)) }

/-- The `groupByNamespace` branch (part_000 lines 340-354, identically
src/batchCall.js lines 219-234): partition by the `namespace` field in
the grouped object's own-key enumeration order and strip the field from
every node (`_.omit(contract, "namespace")`). -/
def groupedOutput (l : List FlatNode) :
    List (String × List (String × List (String × FlatEntry))) :=
  (jsOwnKeys (l.map (fun n => n.nspace))).map (fun k =>
    (k, (l.filter (fun n => n.nspace = k)).map (fun n => (n.address, n.state))))

/-- Re-flattening a namespaced tree by re-attaching each bucket's key as
the `namespace` field of its nodes (the inverse direction of claim C9's
round trip). -/
def regroupFlatten (g : List (String × List (String × List (String × FlatEntry)))) :
    List FlatNode :=
  g.flatMap (fun p => p.2.map (fun q => FlatNode.mk q.1 p.1 q.2))

/-- Grouping then flattening, the round trip of claim C9. -/
def nsRoundtrip (l : List FlatNode) : List FlatNode :=
  regroupFlatten (groupedOutput l)

/-- Everything `execute` produces or mutates, kept side by side so that
theorems can speak about each stage: the registered batch requests, the
reduced `contractsState`, the flattened state (`contractsToReturn`
before grouping), the namespace-grouped shape (returned instead of the
flat one when `groupByNamespace` is set), and the `readContracts`
instance state after all callbacks. -/
structure ExecOutcome where
  calls : List CallDesc
  contractsState : List (NodeG (List BlockVal))
  flatState : List FlatNode
  grouped : List (String × List (String × List (String × FlatEntry)))
  readContractsAfter : List String
deriving DecidableEq, Repr

/-- The `execute` pipeline of `src/unnamed/part_000`, as the sequential
phases its event-loop schedule produces: build `blocks`, expand every
group synchronously against the incoming `readContracts`, register all
requests, flush once, fold `formatContractsState`, post-process with
`flattenArgs`, optionally group by namespace, and finally apply the
deferred `readContracts` writes.  `blockHeight` and `blockResolution`
default to 1 in the JS (`_.get(callOptions, _, 1)`); callers of the
model pass them explicitly. -/
def executeP0 (env : Web3Env) (cache : String → Abi)
    (simplifyResponse groupByNamespace : Bool) (readContracts : List String)
    (groups : List ContractGroup) (blockHeight blockResolution : Nat) : ExecOutcome :=
  let blocks := buildBlocks env.currentBlockNumber blockHeight blockResolution
  let ex := expandGroups env blocks cache readContracts groups
  let cs := formatContractsState ex.1
  let flat := cs.map (flattenArgs simplifyResponse)
  { calls := ex.2,
    contractsState := cs,
    flatState := flat,
    grouped := if groupByNamespace then groupedOutput flat else [],
    readContractsAfter := updateReadContracts readContracts groups }

end P0

namespace BC

/-- The two instance dictionaries of the inline ABI cache of
`src/batchCall.js` (constructor lines 34-35): `abiHashByAddress` maps an
address to the content hash of its ABI, `abiByHash` maps a content hash
to the ABI itself. -/
structure CacheState where
  abiHashByAddress : List (String × String)
  abiByHash : List (String × Abi)
deriving DecidableEq, Repr

/-- The freshly constructed cache. -/
def emptyCache : CacheState :=
  { abiHashByAddress := [], abiByHash := [] }

/-- The `getAbiFromCache` method (src/batchCall.js lines 265-269):
address to hash, hash to ABI; `undefined` at either step yields
`undefined`. -/
def getAbiFromCache (st : CacheState) (address : String) : Option Abi :=
  (lookupKey st.abiHashByAddress address).bind (lookupKey st.abiByHash)

/-- The `cacheAbi` closure of `addAbiToCache` (src/batchCall.js lines
250-254): hash the content, store `hash → abi` and `address → hash`.
The `md5` digest is an opaque deterministic function of the ABI
content. -/
def cacheAbi (md5 : Abi → String) (st : CacheState) (address : String)
    (newAbi : Abi) : CacheState :=
  { abiByHash := setKey (md5 newAbi) newAbi st.abiByHash,
    abiHashByAddress := setKey address (md5 newAbi) st.abiHashByAddress }

/-- Failure modes of the batchCall.js `execute`: a thrown
`fetchAbi` configuration error (no etherscan API key), a thrown
etherscan lookup error, or a per-call transport error message (which
this variant turns into the resolved `{ error: message }` value). -/
inductive BCErr where
  | noApiKey
  | etherscanError
deriving DecidableEq, Repr

/-- The `fetchAbi` method (src/batchCall.js lines 290-309): throw the
configuration error immediately when no API key is configured (before
any network activity); otherwise consult the remote lookup service,
turning an unusable payload into the etherscan error.  `remote` is the
external service oracle (`some abi` = parsable result). -/
def fetchAbi (etherscanApiKey : Option String) (remote : String → Option Abi)
    (address : String) : Except BCErr Abi :=
  match etherscanApiKey with
  | none => Except.error BCErr.noApiKey
  | some _ =>
      match remote address with
      | some abi => Except.ok abi
      | none => Except.error BCErr.etherscanError

/-- The `addAbiToCache` method (src/batchCall.js lines 249-263): a
provided ABI is cached unconditionally; otherwise a cache hit is a
no-op; otherwise the ABI is fetched remotely (and the throttle delay,
which has no functional content here, is applied). -/
def addAbiToCache (md5 : Abi → String) (etherscanApiKey : Option String)
    (remote : String → Option Abi) (st : CacheState) (address : String)
    (providedAbi : Option Abi) : Except BCErr CacheState :=
  match providedAbi with
  | some abi => Except.ok (cacheAbi md5 st address abi)
  | none =>
      match getAbiFromCache st address with
      | some _ => Except.ok st
      | none => (fetchAbi etherscanApiKey remote address).map (cacheAbi md5 st address)

/-- The iteration order of the ABI warm-up loop (src/batchCall.js lines
187-198): for each group without `contracts`, for each of its addresses,
the pair (address, group-level abi).  All modelled groups are in
`addresses` form, so none is skipped. -/
def abiJobs (groups : List ContractGroup) : List (String × Option Abi) :=
  groups.flatMap (fun g => g.addresses.map (fun a => (a, g.abi)))

/-- Running the warm-up jobs sequentially, stopping at the first thrown
error; cache writes made before the throw persist (the JS mutates the
instance fields in place). -/
def runAbis (md5 : Abi → String) (etherscanApiKey : Option String)
    (remote : String → Option Abi) (st : CacheState) :
    List (String × Option Abi) → CacheState × Option BCErr
  | [] => (st, none)
  | (a, ab) :: rest =>
      match addAbiToCache md5 etherscanApiKey remote st a ab with
      | Except.ok st2 => runAbis md5 etherscanApiKey remote st2 rest
      | Except.error e => (st, some e)

/-- The synchronous body of `addMethodToBatch` (src/batchCall.js lines
104-140): skip silently when the method is absent from the contract's
callable surface; otherwise register one request carrying the supplied
arguments unchanged (this variant does not truncate them), and bind the
callback: on success the promise resolves with the method name, raw
value, encoded input (only when `args` was supplied) and args; on a
transport error the promise is REJECTED with that error. -/
def addMethodToBatch (env : Web3Env) (blockNumber : Option Int) (abi : Abi)
    (address : String) (m : MethodSpec) :
    Option CallDesc × Except String (Option (MethodResultG String)) :=
  match abi.find? (fun f => f.name = some m.name) with
  | none => (none, Except.ok none)
  | some fld =>
      let callArgs := m.args.getD []
      let input := m.args.map (fun as => env.encodeCall fld as)
      let desc : CallDesc := CallDesc.mk address m.name callArgs blockNumber
      match env.transport address m.name callArgs blockNumber with
      | Except.ok v =>
          (some desc,
           Except.ok (some { input := input, method := m.name, val := v,
                             args := m.args, address := address }))
      | Except.error e => (some desc, Except.error e)

/-- The requests one address registers (all `batch.add` calls run in the
synchronous phase, before any callback can reject). -/
def addressCalls (env : Web3Env) (blockNumber : Option Int) (abi : Abi)
    (methods : List MethodSpec) (address : String) : List CallDesc :=
  methods.filterMap (fun m => (addMethodToBatch env blockNumber abi address m).1)

/-- The effective method list of an address in this variant:
`readMethods` plus, when `allReadMethods`, the readable fields — with no
constant filtering (batchCall.js has no `readContracts`). -/
def addressMethods (cache : String → Abi) (g : ContractGroup)
    (address : String) : List MethodSpec :=
  g.readMethods ++
    (if g.allReadMethods then
      (getReadableAbiFields (cache address)).map (fun n => MethodSpec.mk n none false)
    else [])

/-- The joined promise of one address (`Promise.all(methodsPromises)`),
rejecting with the first per-call error in registration order. -/
def addAddressToBatch (env : Web3Env) (blockNumber : Option Int)
    (cache : String → Abi) (g : ContractGroup) (address : String) :
    Except String (AddressCallG String) :=
  ((addressMethods cache g address).mapM
      (fun m => (addMethodToBatch env blockNumber (cache address) address m).2)).map
    (fun stl => { address := address, nspace := g.nspace, state := stl })

/-- The resolved output value of the batchCall.js `execute`: a thrown
warm-up error, the caught `{ error: message }` value of a rejected
per-call promise, or the (possibly namespace-grouped) result tree. -/
inductive BCResult where
  | thrown : BCErr → BCResult
  | errorValue : String → BCResult
  | flat : List (NodeG String) → BCResult
  | grouped : List (String × List (String × List (String × List (BucketG String)))) → BCResult
deriving Repr

/-- The namespace-grouping branch of this variant (src/batchCall.js
lines 219-234), on its own node type, in the grouped object's own-key
enumeration order. -/
def groupNodes (l : List (NodeG String)) :
    List (String × List (String × List (String × List (BucketG String)))) :=
  (jsOwnKeys (l.map (fun n => n.nspace))).map (fun k =>
    (k, (l.filter (fun n => n.nspace = k)).map (fun n => (n.address, n.state))))

/-- Everything the batchCall.js `execute` produces: the registered
requests (empty when the warm-up throws, since the batch is created only
after the warm-up loop), the resolved result, and the cache state after
the call (reset when `clearMemoryAfterExecution` is set and the call
completed). -/
structure BCOutcome where
  calls : List CallDesc
  result : BCResult
  cacheAfter : CacheState
deriving Repr

/-- The `execute` pipeline of `src/batchCall.js`: warm the ABI cache
(lines 193-198; a throw here propagates to the caller, before
`new web3.BatchRequest()`), expand every group, register all requests
and flush once, join all promises (a per-call rejection is caught and
becomes `{ error: err.message }` with no partial tree), reduce with
`formatContractsState`, optionally group by namespace, and optionally
clear the cache. -/
def executeBC (md5 : Abi → String) (etherscanApiKey : Option String)
    (remote : String → Option Abi) (env : Web3Env)
    (groupByNamespace clearMemoryAfterExecution : Bool) (st : CacheState)
    (groups : List ContractGroup) (blockNumber : Option Int) : BCOutcome :=
  match runAbis md5 etherscanApiKey remote st (abiJobs groups) with
  | (st2, some e) => { calls := [], result := BCResult.thrown e, cacheAfter := st2 }
  | (st2, none) =>
      let cache := fun a => (getAbiFromCache st2 a).getD []
      let calls := groups.flatMap (fun g => g.addresses.flatMap (fun a =>
        addressCalls env blockNumber (cache a) (addressMethods cache g a) a))
      let states := groups.mapM (fun g =>
        g.addresses.mapM (addAddressToBatch env blockNumber cache g))
      let result :=
        match states with
        | Except.error e => BCResult.errorValue e
        | Except.ok res =>
            let cs := formatContractsState res
            if groupByNamespace then BCResult.grouped (groupNodes cs)
            else BCResult.flat cs
      { calls := calls, result := result,
        cacheAfter := if clearMemoryAfterExecution then emptyCache else st2 }

end BC

namespace P0

/-- The sample taken at a given backward offset from the current head
(`currentBlockNumber - blockNumberIterator`). -/
def sampleAt (current : Int) (off : Nat) : Int :=
  current - off

/-- Folding a sequence of later `execute` calls over the engine's
`readContracts` instance state (each batch is a group list plus its
blockHeight / blockResolution options). -/
def runReadContracts (env : Web3Env) (cache : String → Abi) (sf gf : Bool)
    (rc : List String) (batches : List (List ContractGroup × Nat × Nat)) : List String :=
  batches.foldl (fun rc2 b => (executeP0 env cache sf gf rc2 b.1 b.2.1 b.2.2).readContractsAfter) rc

/-- Whether a key sequence consists of runs of pairwise-distinct keys
(no key reappears after a different key interrupted its run).  The
structural `fuel` is the list length; it only shrinks towards the
recursive call on the strictly shorter dropWhile remainder. -/
def nsGroupedGo : Nat → List String → Bool
  | _, [] => true
  | 0, _ :: _ => false
  | fuel + 1, k :: rest =>
      let tail := rest.dropWhile (fun s => s = k)
      tail.all (fun s => ¬(s = k)) && nsGroupedGo fuel tail

/-- Nodes with equal namespaces are contiguous (the condition under
which grouping then flattening is the identity on the node list). -/
def nsGrouped (l : List String) : Bool :=
  nsGroupedGo l.length l

end P0

namespace BC

/-- Folding a sequence of explicit `cacheAbi` stores, used to state the
content-deduplication property of the cache. -/
def cachePuts (md5 : Abi → String) (st : CacheState) (jobs : List (String × Abi)) : CacheState :=
  jobs.foldl (fun st2 p => cacheAbi md5 st2 p.1 p.2) st

end BC

/-- A two-method ABI used by the concrete scenarios: one zero-argument
view method and one one-argument view method. -/
def demoAbi : Abi :=
  [AbiField.mk (some "totalSupply") 0 1 "view" false,
   AbiField.mk (some "balanceOf") 1 1 "view" false]

/-- A warm cache serving `demoAbi` for every address. -/
def demoCache : String → Abi := fun _ => demoAbi

/-- A collaborator environment whose transport always answers "7". -/
def demoEnv : Web3Env :=
  { currentBlockNumber := 100,
    transport := fun _ _ _ _ => Except.ok "7",
    encodeCall := fun _ as => String.intercalate "," as }

/-- A one-address group reading `totalSupply`. -/
def demoGroup : ContractGroup :=
  { addresses := ["0xA"], nspace := "default",
    readMethods := [MethodSpec.mk "totalSupply" none false],
    allReadMethods := false, abi := none }

/-- A group whose single method spec carries a truthy `constant` flag,
reading one address. -/
def constGroup : ContractGroup :=
  { addresses := ["0xA"], nspace := "default",
    readMethods := [MethodSpec.mk "totalSupply" none true],
    allReadMethods := false, abi := none }

/-- An environment whose transport always fails, for the degraded
scenarios. -/
def errEnv : Web3Env :=
  { currentBlockNumber := 100,
    transport := fun _ _ _ _ => Except.error "connection reset",
    encodeCall := fun _ as => String.intercalate "," as }

/-- The batchCall.js demo group: one address supplying its ABI, reading
one zero-argument method and one one-argument method. -/
def bcGroup : ContractGroup :=
  { addresses := ["0xA"], nspace := "default",
    readMethods := [MethodSpec.mk "totalSupply" none false,
                    MethodSpec.mk "balanceOf" (some ["0xB"]) false],
    allReadMethods := false, abi := some demoAbi }

/-- A transport failing only for `balanceOf`. -/
def bcErrEnv : Web3Env :=
  { currentBlockNumber := 100,
    transport := fun _ nm _ _ =>
      if nm = "balanceOf" then Except.error "boom" else Except.ok "1",
    encodeCall := fun _ as => String.intercalate "," as }

/-- Demo nodes for the namespace round trip. -/
def nodeNsA : P0.FlatNode := P0.FlatNode.mk "0xA" "x" []

/-- Second demo node, other namespace. -/
def nodeNsB : P0.FlatNode := P0.FlatNode.mk "0xB" "y" []

/-- Third demo node, first namespace again. -/
def nodeNsC : P0.FlatNode := P0.FlatNode.mk "0xC" "x" []

/-- Demo node with the array-index-like namespace "9". -/
def nodeNs9 : P0.FlatNode := P0.FlatNode.mk "0xD" "9" []

/-- Demo node with the array-index-like namespace "10". -/
def nodeNs10 : P0.FlatNode := P0.FlatNode.mk "0xE" "10" []

namespace P0

lemma ceil_step (m br : Nat) (hbr : 1 ≤ br) (hm : 1 ≤ m) :
    (m + br - 1) / br = (m - br + br - 1) / br + 1 := by
  have h2 : m + br - 1 = (m - 1) + br := by omega
  rw [h2, Nat.add_div_right _ (by omega)]
  rcases le_or_lt br m with h | h
  · have h1 : m - br + br - 1 = m - 1 := by omega
    rw [h1]
  · have h1 : m - br + br - 1 = br - 1 := by omega
    rw [h1]
    have h3 : (m - 1) / br = 0 := Nat.div_eq_of_lt (by omega)
    have h4 : (br - 1) / br = 0 := Nat.div_eq_of_lt (by omega)
    omega

lemma buildBlocksLoop_eq (current : Int) (bh br : Nat) (hbr : 1 ≤ br) :
    ∀ fuel it, bh - it ≤ fuel →
      buildBlocksLoop current bh br fuel it =
        (List.range ((bh - it + br - 1) / br)).map (fun k => sampleAt current (it + k * br)) := by
  intro fuel
  induction fuel with
  | zero =>
      intro it hit
      have h0 : bh - it = 0 := by omega
      have h1 : (bh - it + br - 1) / br = 0 := by
        rw [h0]; exact Nat.div_eq_of_lt (by omega)
      simp [buildBlocksLoop, h1]
  | succ fuel ih =>
      intro it hit
      by_cases hlt : it < bh
      · have hm : 1 ≤ bh - it := by omega
        have hrec := ih (it + br) (by omega)
        have hstep : (bh - it + br - 1) / br = (bh - (it + br) + br - 1) / br + 1 := by
          have h6 := ceil_step (bh - it) br hbr hm
          have hsub : bh - it - br = bh - (it + br) := by omega
          rw [hsub] at h6
          exact h6
        rw [buildBlocksLoop, if_pos hlt, hrec, hstep, List.range_succ_eq_map]
        simp only [List.map_cons, List.map_map]
        congr 1
        · simp [sampleAt]
        · apply List.map_congr_left
          intro k _
          simp only [Function.comp_apply]
          congr 1
          rw [Nat.succ_mul]
          omega
      · have h0 : bh - it = 0 := by omega
        have h1 : (bh - it + br - 1) / br = 0 := by
          rw [h0]; exact Nat.div_eq_of_lt (by omega)
        simp [buildBlocksLoop, hlt, h1]

lemma buildBlocks_eq (current : Int) (bh br : Nat) (hbr : 1 ≤ br) :
    buildBlocks current bh br =
      ((List.range ((bh + br - 1) / br)).map (fun k => sampleAt current (k * br))).reverse := by
  unfold buildBlocks
  rw [buildBlocksLoop_eq current bh br hbr bh 0 (by omega)]
  congr 1
  apply List.map_congr_left
  intro k _
  congr 1
  omega

lemma buildBlocks_pairwise (current : Int) (bh br : Nat) (hbr : 1 ≤ br) :
    (buildBlocks current bh br).Pairwise (· < ·) := by
  rw [buildBlocks_eq current bh br hbr, List.pairwise_reverse]
  refine List.Pairwise.map _ ?_ (List.pairwise_lt_range _)
  intro a b hab
  have hmul : a * br < b * br := by
    exact Nat.mul_lt_mul_of_lt_of_le hab (Nat.le_refl br) (by omega)
  have hcast : ((a * br : Nat) : Int) < ((b * br : Nat) : Int) := by exact_mod_cast hmul
  simp only [sampleAt]
  omega

end P0

/-- Claim C1 (corrected).  The blocks loop of part_000 lines 56-63 does
not run for `blockHeight` iterations: it runs while the cumulative
backward offset is still below `blockHeight`, i.e. for
`(blockHeight + blockResolution - 1) / blockResolution` (the rounded-up
quotient) iterations, sampling `current - k·blockResolution` and then
reversing, so samples are oldest-to-newest and strictly increasing.
For `blockResolution = 1` this is exactly `blockHeight` samples, and the
`blockHeight = 3, blockResolution = 1` scenario yields the three
consecutive blocks up to the head in strictly increasing order. -/
theorem c1_block_samples (current : Int) (blockHeight blockResolution : Nat)
    (hbh : 1 ≤ blockHeight) (hbr : 1 ≤ blockResolution) :
    P0.buildBlocks current blockHeight blockResolution =
        ((List.range ((blockHeight + blockResolution - 1) / blockResolution)).map
          (fun k => P0.sampleAt current (k * blockResolution))).reverse
      ∧ (P0.buildBlocks current blockHeight blockResolution).Pairwise (· < ·)
      ∧ (P0.buildBlocks current blockHeight 1).length = blockHeight
      ∧ P0.buildBlocks current 3 1 = [current - 2, current - 1, current] := by
  refine ⟨P0.buildBlocks_eq current blockHeight blockResolution hbr,
          P0.buildBlocks_pairwise current blockHeight blockResolution hbr, ?_, ?_⟩
  · rw [P0.buildBlocks_eq current blockHeight 1 (by omega)]
    rw [List.length_reverse, List.length_map, List.length_range]
    simp
  · norm_num [P0.buildBlocks, P0.buildBlocksLoop, P0.sampleAt]

/-- Witness for C1 at `current = 100`, `blockHeight = 3`,
`blockResolution = 2`: the loop makes 2 iterations, not 3. -/
theorem c1_witness :
    P0.buildBlocks 100 3 2 =
        ((List.range ((3 + 2 - 1) / 2)).map (fun k => P0.sampleAt 100 (k * 2))).reverse
      ∧ (P0.buildBlocks 100 3 2).Pairwise (· < ·)
      ∧ (P0.buildBlocks 100 3 1).length = 3
      ∧ P0.buildBlocks 100 3 1 = [100 - 2, 100 - 1, 100] :=
  c1_block_samples 100 3 2 (by norm_num) (by norm_num)

/-- Counterexample for C1 as stated: with `blockHeight = 3` and
`blockResolution = 2` the code emits 2 samples, not the 3 samples of
"stepping backward by blockResolution for blockHeight iterations". -/
theorem c1_counterexample :
    P0.buildBlocks 100 3 2 = [98, 100]
      ∧ P0.claimedBlocks 100 3 2 = [96, 98, 100]
      ∧ P0.buildBlocks 100 3 2 ≠ P0.claimedBlocks 100 3 2 := by
  refine ⟨by decide, by decide, by decide⟩

lemma lookupKey_setKey_self (k : String) (v : β) :
    ∀ m : List (String × β), lookupKey (setKey k v m) k = some v := by
  intro m
  induction m with
  | nil => simp [setKey, lookupKey]
  | cons p rest ih =>
      by_cases h : p.1 = k
      · simp [setKey, h, lookupKey]
      · simp only [setKey, if_neg h]
        rw [show lookupKey (p :: setKey k v rest) k =
              lookupKey (setKey k v rest) k by simp [lookupKey, List.find?, h]]
        exact ih

lemma lookupKey_setKey_ne (k k' : String) (v : β) (hne : k ≠ k') :
    ∀ m : List (String × β), lookupKey (setKey k v m) k' = lookupKey m k' := by
  intro m
  induction m with
  | nil => simp [setKey, lookupKey, List.find?, hne]
  | cons p rest ih =>
      by_cases h : p.1 = k
      · simp only [setKey, if_pos h]
        simp [lookupKey, List.find?, hne, h]
      · simp only [setKey, if_neg h]
        by_cases h2 : p.1 = k'
        · simp [lookupKey, List.find?, h2]
        · rw [show lookupKey (p :: setKey k v rest) k' =
                lookupKey (setKey k v rest) k' by simp [lookupKey, List.find?, h2]]
          rw [show lookupKey (p :: rest) k' = lookupKey rest k' by
                simp [lookupKey, List.find?, h2]]
          exact ih

lemma setKey_setKey_same (k : String) (v : β) :
    ∀ m : List (String × β), setKey k v (setKey k v m) = setKey k v m := by
  intro m
  induction m with
  | nil => simp [setKey]
  | cons p rest ih =>
      by_cases h : p.1 = k
      · simp [setKey, h]
      · simp [setKey, h, ih]

lemma setKey_keys (k : String) (v : β) :
    ∀ m : List (String × β),
      (setKey k v m).map Prod.fst =
        if k ∈ m.map Prod.fst then m.map Prod.fst else m.map Prod.fst ++ [k] := by
  intro m
  induction m with
  | nil => simp [setKey]
  | cons p rest ih =>
      by_cases h : p.1 = k
      · simp [setKey, h]
      · simp only [setKey, if_neg h, List.map_cons, ih]
        by_cases h2 : k ∈ rest.map Prod.fst
        · simp [h2, Ne.symm h]
        · simp [h2, Ne.symm h]

lemma dedupKeysAux_congr :
    ∀ (l s1 s2 : List String), (∀ x, x ∈ s1 ↔ x ∈ s2) →
      dedupKeysAux s1 l = dedupKeysAux s2 l := by
  intro l
  induction l with
  | nil => intro s1 s2 _; rfl
  | cons a rest ih =>
      intro s1 s2 hs
      by_cases h : a ∈ s1
      · rw [dedupKeysAux, dedupKeysAux, if_pos h, if_pos ((hs a).mp h)]
        exact ih s1 s2 hs
      · rw [dedupKeysAux, dedupKeysAux, if_neg h, if_neg (fun hc => h ((hs a).mpr hc))]
        refine congrArg (List.cons a) (ih _ _ ?_)
        intro x
        simp [hs x]

namespace BC

lemma cachePuts_hash_keys (md5 : Abi → String) :
    ∀ (jobs : List (String × Abi)) (st : CacheState),
      (cachePuts md5 st jobs).abiByHash.map Prod.fst =
        st.abiByHash.map Prod.fst ++
          dedupKeysAux (st.abiByHash.map Prod.fst) (jobs.map (fun p => md5 p.2)) := by
  intro jobs
  induction jobs with
  | nil => intro st; simp [cachePuts, dedupKeysAux]
  | cons job rest ih =>
      intro st
      have hstep : cachePuts md5 st (job :: rest) =
          cachePuts md5 (cacheAbi md5 st job.1 job.2) rest := rfl
      rw [hstep, ih]
      have hkeys := setKey_keys (md5 job.2) job.2 st.abiByHash
      by_cases h : md5 job.2 ∈ st.abiByHash.map Prod.fst
      · have h1 : (cacheAbi md5 st job.1 job.2).abiByHash.map Prod.fst =
            st.abiByHash.map Prod.fst := by
          simp only [cacheAbi]
          rw [hkeys, if_pos h]
        rw [h1]
        simp only [List.map_cons]
        rw [dedupKeysAux, if_pos h]
      · have h1 : (cacheAbi md5 st job.1 job.2).abiByHash.map Prod.fst =
            st.abiByHash.map Prod.fst ++ [md5 job.2] := by
          simp only [cacheAbi]
          rw [hkeys, if_neg h]
        rw [h1]
        simp only [List.map_cons]
        rw [dedupKeysAux, if_neg h]
        rw [dedupKeysAux_congr (rest.map (fun p => md5 p.2))
              (st.abiByHash.map Prod.fst ++ [md5 job.2])
              (md5 job.2 :: st.abiByHash.map Prod.fst) (by intro x; simp; tauto)]
        simp

end BC

/-- Claim C5 (confirmed).  The `addAbiToCache` put path of
src/batchCall.js lines 249-263 is idempotent and content-deduplicating:
a provided ABI is always stored via `cacheAbi`; re-storing byte-identical
content is a no-op on the state; storing identical content for two
addresses from a fresh cache leaves exactly one `hash → abi` entry with
both addresses mapped to that one hash; and, in general, the stored
hash keys after any sequence of puts from a fresh cache are exactly the
distinct content hashes in first-appearance order, so stored ABI content
is proportional to the number of distinct ABIs, not addresses. -/
theorem c5_cache_idempotent_dedup :
    (∀ (md5 : Abi → String) (etherscanApiKey : Option String)
       (remote : String → Option Abi) (st : BC.CacheState) (a : String) (abi : Abi),
        BC.addAbiToCache md5 etherscanApiKey remote st a (some abi) =
          Except.ok (BC.cacheAbi md5 st a abi))
    ∧ (∀ (md5 : Abi → String) (st : BC.CacheState) (a : String) (abi : Abi),
        BC.cacheAbi md5 (BC.cacheAbi md5 st a abi) a abi = BC.cacheAbi md5 st a abi)
    ∧ (∀ (md5 : Abi → String) (a1 a2 : String) (abi : Abi),
        (BC.cacheAbi md5 (BC.cacheAbi md5 BC.emptyCache a1 abi) a2 abi).abiByHash =
            [(md5 abi, abi)]
          ∧ lookupKey (BC.cacheAbi md5 (BC.cacheAbi md5 BC.emptyCache a1 abi) a2 abi).abiHashByAddress a1 =
              some (md5 abi)
          ∧ lookupKey (BC.cacheAbi md5 (BC.cacheAbi md5 BC.emptyCache a1 abi) a2 abi).abiHashByAddress a2 =
              some (md5 abi))
    ∧ (∀ (md5 : Abi → String) (jobs : List (String × Abi)),
        (BC.cachePuts md5 BC.emptyCache jobs).abiByHash.map Prod.fst =
          dedupKeys (jobs.map (fun p => md5 p.2))) := by
  refine ⟨fun _ _ _ _ _ _ => rfl, ?_, ?_, ?_⟩
  · intro md5 st a abi
    simp only [BC.cacheAbi]
    rw [setKey_setKey_same, setKey_setKey_same]
  · intro md5 a1 a2 abi
    refine ⟨?_, ?_, ?_⟩
    · simp [BC.cacheAbi, BC.emptyCache, setKey]
    · by_cases h : a2 = a1
      · simp [BC.cacheAbi, BC.emptyCache, h, setKey, lookupKey, List.find?]
      · simp only [BC.cacheAbi, BC.emptyCache]
        rw [lookupKey_setKey_ne a2 a1 (md5 abi) h]
        exact lookupKey_setKey_self a1 (md5 abi) []
    · simp only [BC.cacheAbi, BC.emptyCache]
      exact lookupKey_setKey_self a2 (md5 abi) _
  · intro md5 jobs
    rw [BC.cachePuts_hash_keys md5 jobs BC.emptyCache]
    simp [BC.emptyCache, dedupKeys]

namespace BC

lemma getAbiFromCache_none_of_noHash (st : CacheState) (a : String)
    (h : lookupKey st.abiHashByAddress a = none) : getAbiFromCache st a = none := by
  simp [getAbiFromCache, h]

lemma cacheAbi_preserves_noHash (md5 : Abi → String) (st : CacheState)
    (a b : String) (abi : Abi) (hne : b ≠ a)
    (h : lookupKey st.abiHashByAddress a = none) :
    lookupKey (cacheAbi md5 st b abi).abiHashByAddress a = none := by
  simp only [cacheAbi]
  rw [lookupKey_setKey_ne b a (md5 abi) hne]
  exact h

lemma runAbis_noApiKey (md5 : Abi → String) (remote : String → Option Abi) (a : String) :
    ∀ (jobs : List (String × Option Abi)) (st : CacheState),
      lookupKey st.abiHashByAddress a = none →
      (a, none) ∈ jobs →
      (∀ p ∈ jobs, p.1 = a → p.2 = none) →
      (runAbis md5 none remote st jobs).2 = some BCErr.noApiKey := by
  intro jobs
  induction jobs with
  | nil => intro st _ hmem _; cases hmem
  | cons job rest ih =>
      intro st hmiss hmem hall
      rcases job with ⟨b, ab⟩
      match hab : ab with
      | some abi =>
          have hbne : b ≠ a := by
            intro hba
            have := hall (b, some abi) (by simp) (by simpa using hba)
            simp at this
          rw [runAbis]
          have hstep : addAbiToCache md5 none remote st b (some abi) =
              Except.ok (cacheAbi md5 st b abi) := rfl
          rw [hstep]
          refine ih (cacheAbi md5 st b abi)
            (cacheAbi_preserves_noHash md5 st a b abi hbne hmiss) ?_ ?_
          · rcases List.mem_cons.mp hmem with h | h
            · exact absurd h (by simp)
            · exact h
          · intro p hp hpa
            exact hall p (List.mem_cons_of_mem _ hp) hpa
      | none =>
          rw [runAbis]
          match hcached : getAbiFromCache st b with
          | some oldAbi =>
              have hbne : b ≠ a := by
                intro hba
                rw [hba] at hcached
                rw [getAbiFromCache_none_of_noHash st a hmiss] at hcached
                cases hcached
              have hstep : addAbiToCache md5 none remote st b none = Except.ok st := by
                simp [addAbiToCache, hcached]
              rw [hstep]
              refine ih st hmiss ?_ ?_
              · rcases List.mem_cons.mp hmem with h | h
                · injection h with h1 _
                  exact absurd h1.symm hbne
                · exact h
              · intro p hp hpa
                exact hall p (List.mem_cons_of_mem _ hp) hpa
          | none =>
              have hstep : addAbiToCache md5 none remote st b none =
                  Except.error BCErr.noApiKey := by
                simp [addAbiToCache, hcached, fetchAbi, Except.map]
              rw [hstep]

end BC

/-- Claim C3 (confirmed).  For a batch containing an address group with
no supplied ABI, where the address has no cached ABI and no group in the
batch supplies an ABI covering it, and no etherscan API key is
configured, `execute` of src/batchCall.js fails with the configuration
error thrown by `fetchAbi` (surfaced to the caller: the `addAbis` loop
of lines 193-198 is not inside the try block), and it fails before the
network batch exists: no request is ever registered, for any transport
and any remote-service behaviour. -/
theorem c3_missing_abi_configuration_error (md5 : Abi → String)
    (remote : String → Option Abi) (env : Web3Env)
    (groupByNamespace clearMemoryAfterExecution : Bool) (st : BC.CacheState)
    (groups : List ContractGroup) (blockNumber : Option Int) (a : String)
    (g : ContractGroup) (hg : g ∈ groups) (ha : a ∈ g.addresses)
    (hnoprov : ∀ g2 ∈ groups, g2.abi = none ∨ a ∉ g2.addresses)
    (hmiss : lookupKey st.abiHashByAddress a = none) :
    (BC.executeBC md5 none remote env groupByNamespace clearMemoryAfterExecution
        st groups blockNumber).result = BC.BCResult.thrown BC.BCErr.noApiKey
    ∧ (BC.executeBC md5 none remote env groupByNamespace clearMemoryAfterExecution
        st groups blockNumber).calls = [] := by
  have hgabi : g.abi = none := by
    rcases hnoprov g hg with h | h
    · exact h
    · exact absurd ha h
  have hmem : (a, (none : Option Abi)) ∈ BC.abiJobs groups := by
    simp only [BC.abiJobs, List.mem_flatMap]
    refine ⟨g, hg, ?_⟩
    rw [← hgabi]
    exact List.mem_map_of_mem _ ha
  have hall : ∀ p ∈ BC.abiJobs groups, p.1 = a → p.2 = none := by
    intro p hp hpa
    simp only [BC.abiJobs, List.mem_flatMap] at hp
    rcases hp with ⟨g2, hg2, hpm⟩
    rcases List.mem_map.mp hpm with ⟨x, hx, hpx⟩
    rcases hnoprov g2 hg2 with h | h
    · rw [← hpx]; simpa using h
    · exfalso
      apply h
      have : x = a := by
        have := congrArg Prod.fst hpx
        simpa [hpa] using this
      rw [← this]; exact hx
  have herr := BC.runAbis_noApiKey md5 remote a (BC.abiJobs groups) st hmiss hmem hall
  unfold BC.executeBC
  rcases hr : BC.runAbis md5 none remote st (BC.abiJobs groups) with ⟨st2, oe⟩
  rw [hr] at herr
  simp only at herr
  subst herr
  exact ⟨rfl, rfl⟩

/-- Witness for C3: a fresh engine with no API key, one address group
with no supplied ABI, an empty cache — `execute` resolves to the thrown
configuration error and registers no request. -/
theorem c3_witness :
    (BC.executeBC (fun _ => "h") none (fun _ => none) demoEnv false false
        BC.emptyCache [demoGroup] none).result = BC.BCResult.thrown BC.BCErr.noApiKey
    ∧ (BC.executeBC (fun _ => "h") none (fun _ => none) demoEnv false false
        BC.emptyCache [demoGroup] none).calls = [] :=
  c3_missing_abi_configuration_error (fun _ => "h") (fun _ => none) demoEnv false false
    BC.emptyCache [demoGroup] none "0xA" demoGroup (by decide) (by decide)
    (by decide) (by rfl)

lemma mem_insertAddr_mono (l : List String) (b x : String) (hx : x ∈ l) :
    x ∈ insertAddr l b := by
  unfold insertAddr
  by_cases h : b ∈ l
  · simpa [h]
  · simp [h, hx]

lemma mem_insertAddr_self (l : List String) (b : String) : b ∈ insertAddr l b := by
  unfold insertAddr
  by_cases h : b ∈ l
  · simpa [h]
  · simp [h]

lemma mem_foldl_insertAddr_mono :
    ∀ (l : List String) (rc : List String) (x : String), x ∈ rc →
      x ∈ l.foldl insertAddr rc := by
  intro l
  induction l with
  | nil => intro rc x hx; simpa using hx
  | cons b rest ih =>
      intro rc x hx
      exact ih (insertAddr rc b) x (mem_insertAddr_mono rc b x hx)

lemma mem_foldl_insertAddr_self :
    ∀ (l : List String) (rc : List String) (a : String), a ∈ l →
      a ∈ l.foldl insertAddr rc := by
  intro l
  induction l with
  | nil => intro rc a ha; cases ha
  | cons b rest ih =>
      intro rc a ha
      rcases List.mem_cons.mp ha with h | h
      · subst h
        exact mem_foldl_insertAddr_mono rest (insertAddr rc a) a (mem_insertAddr_self rc a)
      · exact ih (insertAddr rc b) a h

namespace P0

lemma updateReadContracts_mono :
    ∀ (groups : List ContractGroup) (rc : List String) (x : String), x ∈ rc →
      x ∈ updateReadContracts rc groups := by
  intro groups
  induction groups with
  | nil => intro rc x hx; simpa [updateReadContracts] using hx
  | cons g rest ih =>
      intro rc x hx
      exact ih (g.addresses.foldl insertAddr rc) x
        (mem_foldl_insertAddr_mono g.addresses rc x hx)

lemma updateReadContracts_mem :
    ∀ (groups : List ContractGroup) (rc : List String) (g : ContractGroup) (a : String),
      g ∈ groups → a ∈ g.addresses → a ∈ updateReadContracts rc groups := by
  intro groups
  induction groups with
  | nil => intro rc g a hg _; cases hg
  | cons g2 rest ih =>
      intro rc g a hg ha
      rcases List.mem_cons.mp hg with h | h
      · subst h
        exact updateReadContracts_mono rest _ a
          (mem_foldl_insertAddr_self g.addresses rc a ha)
      · exact ih _ g a h ha

lemma executeP0_calls (env : Web3Env) (cache : String → Abi)
    (sf gf : Bool) (rc : List String) (groups : List ContractGroup) (bh br : Nat) :
    (executeP0 env cache sf gf rc groups bh br).calls =
      groups.flatMap (fun g =>
        (addContractToBatch env (buildBlocks env.currentBlockNumber bh br) cache rc g).2) := by
  simp [executeP0, expandGroups, List.flatMap_map]

lemma filterOutConstants_of_mem (rc : List String) (a : String) (ha : a ∈ rc)
    (m : MethodSpec) : filterOutConstants rc a m = !m.constant := by
  simp [filterOutConstants, ha]

lemma addAddress_prune (env : Web3Env) (blocks : List Int) (cache : String → Abi)
    (rc : List String) (rm : List MethodSpec) (arm : Bool) (ns a : String)
    (ha : a ∈ rc) :
    addAddressToBatch env blocks cache rc rm arm ns a =
      addAddressToBatch env blocks cache rc (rm.filter (fun m => !m.constant)) arm ns a := by
  have hlist : ∀ A : List MethodSpec,
      (rm ++ A).filter (filterOutConstants rc a) =
        (rm.filter (fun m => !m.constant) ++ A).filter (filterOutConstants rc a) := by
    intro A
    rw [List.filter_append, List.filter_append]
    congr 1
    have h1 : rm.filter (filterOutConstants rc a) = rm.filter (fun m => !m.constant) :=
      List.filter_congr (fun m _ => filterOutConstants_of_mem rc a ha m)
    have h2 : (rm.filter (fun m => !m.constant)).filter (filterOutConstants rc a) =
        rm.filter (fun m => !m.constant) := by
      apply List.filter_eq_self.mpr
      intro m hm
      rw [filterOutConstants_of_mem rc a ha m]
      exact (List.mem_filter.mp hm).2
    rw [h1, h2]
  simp only [addAddressToBatch]
  rw [hlist]

end P0

/-- Claim C2 (corrected).  The constant filter does not act between
groups of one batch: every group of an `execute` call is expanded
against the `readContracts` state from before the call, because the
`readContracts[address] = true` writes are promise continuations that
run only after the network flush.  An address appearing in two groups of
one batch is therefore read twice even for a constant-flagged method
(concrete conjuncts four and five: the same request is registered twice,
and only a second `execute` on the same engine filters it out).  The
filter consults the method spec's own `constant` flag together with the
engine-lifetime `readContracts` marker: for an already-read address the
expansion behaves exactly as if constant-flagged specs had been removed
from `readMethods`. -/
theorem c2_constant_filter_scope :
    (∀ (env : Web3Env) (cache : String → Abi) (sf gf : Bool) (rc : List String)
       (groups : List ContractGroup) (bh br : Nat),
        (P0.executeP0 env cache sf gf rc groups bh br).calls =
          groups.flatMap (fun g =>
            (P0.addContractToBatch env (P0.buildBlocks env.currentBlockNumber bh br)
              cache rc g).2))
    ∧ (∀ (env : Web3Env) (blocks : List Int) (cache : String → Abi)
         (rc : List String) (rm : List MethodSpec) (arm : Bool) (ns a : String),
        a ∈ rc →
          P0.addAddressToBatch env blocks cache rc rm arm ns a =
            P0.addAddressToBatch env blocks cache rc
              (rm.filter (fun m => !m.constant)) arm ns a)
    ∧ (∀ (env : Web3Env) (cache : String → Abi) (sf gf : Bool) (rc : List String)
         (groups : List ContractGroup) (bh br : Nat) (g : ContractGroup) (a : String),
        g ∈ groups → a ∈ g.addresses →
          a ∈ (P0.executeP0 env cache sf gf rc groups bh br).readContractsAfter)
    ∧ (P0.executeP0 demoEnv demoCache false false [] [constGroup, constGroup] 1 1).calls =
        [CallDesc.mk "0xA" "totalSupply" [] (some 100),
         CallDesc.mk "0xA" "totalSupply" [] (some 100)]
    ∧ (P0.executeP0 demoEnv demoCache false false
          (P0.executeP0 demoEnv demoCache false false [] [constGroup, constGroup] 1 1).readContractsAfter
          [constGroup, constGroup] 1 1).calls = [] := by
  refine ⟨P0.executeP0_calls, ?_, ?_, by decide, by decide⟩
  · intro env blocks cache rc rm arm ns a ha
    exact P0.addAddress_prune env blocks cache rc rm arm ns a ha
  · intro env cache sf gf rc groups bh br g a hg ha
    exact P0.updateReadContracts_mem groups rc g a hg ha

/-- Witness for C2: the pruning equality applied to an already-read
address, and the marking applied to the demo batch. -/
theorem c2_witness :
    P0.addAddressToBatch demoEnv [100] demoCache ["0xA"]
        [MethodSpec.mk "totalSupply" none true] false "default" "0xA" =
      P0.addAddressToBatch demoEnv [100] demoCache ["0xA"]
        ([MethodSpec.mk "totalSupply" none true].filter (fun m => !m.constant))
        false "default" "0xA"
    ∧ "0xA" ∈ (P0.executeP0 demoEnv demoCache false false [] [constGroup] 1 1).readContractsAfter :=
  ⟨c2_constant_filter_scope.2.1 demoEnv [100] demoCache ["0xA"]
      [MethodSpec.mk "totalSupply" none true] false "default" "0xA" (by decide),
   c2_constant_filter_scope.2.2.1 demoEnv demoCache false false [] [constGroup] 1 1
      constGroup "0xA" (by decide) (by decide)⟩

/-- Counterexample for C2 as stated: a fresh engine, one batch whose two
groups both read the same address with a constant-flagged method — the
second group does not filter it, the identical request is registered
twice in the one batch. -/
theorem c2_counterexample :
    (P0.executeP0 demoEnv demoCache false false [] [constGroup, constGroup] 1 1).calls =
      [CallDesc.mk "0xA" "totalSupply" [] (some 100),
       CallDesc.mk "0xA" "totalSupply" [] (some 100)]
    ∧ ((P0.executeP0 demoEnv demoCache false false [] [constGroup, constGroup] 1 1).calls).length = 2 := by
  exact ⟨by decide, by decide⟩

/-- Claim C10 (confirmed).  The `readContracts` marker state only grows:
every incoming marker survives one `execute` (and any sequence of later
`execute` calls), every address appearing in any group of a batch is
marked afterwards, and for a marked address the filter rejects every
constant-flagged method spec — so the "read at most once" scope is the
engine instance's lifetime. -/
theorem c10_readContracts_lifetime :
    (∀ (env : Web3Env) (cache : String → Abi) (sf gf : Bool) (rc : List String)
       (groups : List ContractGroup) (bh br : Nat) (x : String), x ∈ rc →
        x ∈ (P0.executeP0 env cache sf gf rc groups bh br).readContractsAfter)
    ∧ (∀ (env : Web3Env) (cache : String → Abi) (sf gf : Bool) (rc : List String)
         (batches : List (List ContractGroup × Nat × Nat)) (x : String), x ∈ rc →
        x ∈ P0.runReadContracts env cache sf gf rc batches)
    ∧ (∀ (rc : List String) (a : String) (m : MethodSpec), a ∈ rc → m.constant = true →
        P0.filterOutConstants rc a m = false) := by
  refine ⟨?_, ?_, ?_⟩
  · intro env cache sf gf rc groups bh br x hx
    exact P0.updateReadContracts_mono groups rc x hx
  · intro env cache sf gf rc batches
    induction batches generalizing rc with
    | nil => intro x hx; simpa [P0.runReadContracts] using hx
    | cons b rest ih =>
        intro x hx
        have hstep : x ∈ (P0.executeP0 env cache sf gf rc b.1 b.2.1 b.2.2).readContractsAfter :=
          P0.updateReadContracts_mono b.1 rc x hx
        exact ih _ x hstep
  · intro rc a m ha hm
    simp [P0.filterOutConstants, ha, hm]

/-- Witness for C10: the demo address marked by a first `execute` stays
marked through two later batches, and its constant-flagged spec is
filtered. -/
theorem c10_witness :
    "0xA" ∈ P0.runReadContracts demoEnv demoCache false false ["0xA"]
        [([constGroup], 1, 1), ([], 2, 1)]
    ∧ P0.filterOutConstants ["0xA"] "0xA" (MethodSpec.mk "totalSupply" none true) = false :=
  ⟨c10_readContracts_lifetime.2.1 demoEnv demoCache false false ["0xA"]
      [([constGroup], 1, 1), ([], 2, 1)] "0xA" (by decide),
   c10_readContracts_lifetime.2.2 ["0xA"] "0xA" (MethodSpec.mk "totalSupply" none true)
      (by decide) (by decide)⟩

lemma lookupKey_map_snd (g : β → γ) (k : String) :
    ∀ l : List (String × β),
      lookupKey (l.map (fun p => (p.1, g p.2))) k = (lookupKey l k).map g := by
  intro l
  induction l with
  | nil => simp [lookupKey]
  | cons p rest ih =>
      by_cases h : p.1 = k
      · simp [lookupKey, List.find?, h]
      · simp only [List.map_cons]
        rw [show lookupKey ((p.1, g p.2) :: rest.map (fun p => (p.1, g p.2))) k =
              lookupKey (rest.map (fun p => (p.1, g p.2))) k by
            simp [lookupKey, List.find?, h]]
        rw [show lookupKey (p :: rest) k = lookupKey rest k by
            simp [lookupKey, List.find?, h]]
        exact ih

lemma lookupKey_singleton_ne (k nm : String) (v : β) (h : k ≠ nm) :
    lookupKey [(k, v)] nm = none := by
  simp [lookupKey, List.find?, h]

lemma updateFirstNode_mem (addr : String) (f : NodeG α → NodeG α) :
    ∀ (l : List (NodeG α)) (n2 : NodeG α), n2 ∈ updateFirstNode addr f l →
      n2 ∈ l ∨ ∃ n, n ∈ l ∧ n.address = addr ∧ n2 = f n := by
  intro l
  induction l with
  | nil => intro n2 h; cases h
  | cons n rest ih =>
      intro n2 h
      by_cases hn : n.address = addr
      · rw [updateFirstNode, if_pos hn] at h
        rcases List.mem_cons.mp h with h2 | h2
        · exact Or.inr ⟨n, List.mem_cons_self n rest, hn, h2⟩
        · exact Or.inl (List.mem_cons_of_mem n h2)
      · rw [updateFirstNode, if_neg hn] at h
        rcases List.mem_cons.mp h with h2 | h2
        · exact Or.inl (by simp [h2])
        · rcases ih n2 h2 with h3 | ⟨n3, hn3, hn3a, hn3e⟩
          · exact Or.inl (List.mem_cons_of_mem n h3)
          · exact Or.inr ⟨n3, List.mem_cons_of_mem n hn3, hn3a, hn3e⟩

lemma lookupKey_ite_setKey_then (c : Prop) [Decidable c] (k nm : String)
    (hk : k ≠ nm) (v : β) (m : List (String × β)) :
    lookupKey (if c then setKey k v m else m) nm = lookupKey m nm := by
  by_cases h : c
  · rw [if_pos h, lookupKey_setKey_ne k nm v hk]
  · rw [if_neg h]

lemma lookupKey_ite_setKey_else (c : Prop) [Decidable c] (k nm : String)
    (hk : k ≠ nm) (v : β) (m : List (String × β)) :
    lookupKey (if c then m else setKey k v m) nm = lookupKey m nm := by
  by_cases h : c
  · rw [if_pos h]
  · rw [if_neg h, lookupKey_setKey_ne k nm v hk]

lemma mergeBucketState_lookup_ne (r : MethodResultG α)
    (st : List (String × List (BucketG α))) (nm : String) (hne : r.method ≠ nm) :
    lookupKey (mergeBucketState r st) nm = lookupKey st nm := by
  unfold mergeBucketState
  rw [lookupKey_ite_setKey_else _ r.method nm hne]
  rw [lookupKey_ite_setKey_then _ r.method nm hne]

lemma applyMethodResultG_keeps_none (a nm addr ns : String)
    (acc : List (NodeG α)) (r? : Option (MethodResultG α))
    (hacc : ∀ node ∈ acc, node.address = a → lookupKey node.state nm = none)
    (hr : addr = a → ∀ r, r? = some r → r.method ≠ nm) :
    ∀ node ∈ applyMethodResultG addr ns acc r?, node.address = a →
      lookupKey node.state nm = none := by
  match r? with
  | none => exact hacc
  | some r =>
      have hrm : addr = a → r.method ≠ nm := fun h => hr h r rfl
      match hfind : acc.find? (fun n => n.address = addr) with
      | none =>
          intro node hnode hna
          simp only [applyMethodResultG, hfind] at hnode
          rcases List.mem_append.mp hnode with h | h
          · exact hacc node h hna
          · have hnd := List.mem_singleton.mp h
            subst hnd
            have haddr : addr = a := hna
            exact lookupKey_singleton_ne r.method nm _ (hrm haddr)
      | some node0 =>
          intro node hnode hna
          simp only [applyMethodResultG, hfind] at hnode
          have hmem0 : node0 ∈ acc := List.mem_of_find?_eq_some hfind
          have haddr0 : node0.address = addr := by
            have h2 := List.find?_some hfind
            simpa using h2
          rcases updateFirstNode_mem addr _ acc node hnode with h | ⟨n, hn, hnaddr, hne⟩
          · exact hacc node h hna
          · have haddr : addr = a := by
              rw [hne] at hna
              simpa [hnaddr] using hna
            have hm0 : lookupKey node0.state nm = none :=
              hacc node0 hmem0 (haddr0.trans haddr)
            rw [hne]
            show lookupKey (mergeBucketState r node0.state) nm = none
            rw [mergeBucketState_lookup_ne r node0.state nm (hrm haddr)]
            exact hm0

lemma foldl_apply_keeps_none (a nm addr ns : String) :
    ∀ (stl : List (Option (MethodResultG α))) (acc : List (NodeG α)),
      (∀ node ∈ acc, node.address = a → lookupKey node.state nm = none) →
      (addr = a → ∀ r? ∈ stl, ∀ r, r? = some r → r.method ≠ nm) →
      ∀ node ∈ stl.foldl (applyMethodResultG addr ns) acc, node.address = a →
        lookupKey node.state nm = none := by
  intro stl
  induction stl with
  | nil => intro acc hacc _; exact hacc
  | cons r? rest ih =>
      intro acc hacc hstl
      simp only [List.foldl_cons]
      refine ih (applyMethodResultG addr ns acc r?) ?_ ?_
      · exact applyMethodResultG_keeps_none a nm addr ns acc r? hacc
          (fun h r hrr => hstl h r? (by simp) r hrr)
      · intro h r2? hr2 r hrr
        exact hstl h r2? (List.mem_cons_of_mem _ hr2) r hrr

lemma formatAddressCall_keeps_none (a nm : String) (acc : List (NodeG α))
    (ac : AddressCallG α)
    (hacc : ∀ node ∈ acc, node.address = a → lookupKey node.state nm = none)
    (hs : ac.address = a → ∀ r? ∈ ac.state, ∀ r, r? = some r → r.method ≠ nm) :
    ∀ node ∈ formatAddressCall acc ac, node.address = a →
      lookupKey node.state nm = none :=
  foldl_apply_keeps_none a nm ac.address ac.nspace ac.state acc hacc hs

lemma formatContractsState_keeps_none (a nm : String)
    (res : List (List (AddressCallG α)))
    (hres : ∀ cfg ∈ res, ∀ ac ∈ cfg, ac.address = a →
      ∀ r? ∈ ac.state, ∀ r, r? = some r → r.method ≠ nm) :
    ∀ node ∈ formatContractsState res, node.address = a →
      lookupKey node.state nm = none := by
  unfold formatContractsState
  suffices h : ∀ (res2 : List (List (AddressCallG α))) (acc : List (NodeG α)),
      (∀ node ∈ acc, node.address = a → lookupKey node.state nm = none) →
      (∀ cfg ∈ res2, ∀ ac ∈ cfg, ac.address = a →
        ∀ r? ∈ ac.state, ∀ r, r? = some r → r.method ≠ nm) →
      ∀ node ∈ res2.foldl (fun acc2 cfg => cfg.foldl formatAddressCall acc2) acc,
        node.address = a → lookupKey node.state nm = none by
    exact h res [] (by intro node hn; cases hn) hres
  intro res2
  induction res2 with
  | nil => intro acc hacc _; exact hacc
  | cons cfg rest ih =>
      intro acc hacc hres2
      simp only [List.foldl_cons]
      refine ih (cfg.foldl formatAddressCall acc) ?_ ?_
      · suffices h2 : ∀ (cfg2 : List (AddressCallG α)) (acc2 : List (NodeG α)),
            (∀ node ∈ acc2, node.address = a → lookupKey node.state nm = none) →
            (∀ ac ∈ cfg2, ac.address = a →
              ∀ r? ∈ ac.state, ∀ r, r? = some r → r.method ≠ nm) →
            ∀ node ∈ cfg2.foldl formatAddressCall acc2, node.address = a →
              lookupKey node.state nm = none by
          exact h2 cfg acc hacc (hres2 cfg (by simp))
        intro cfg2
        induction cfg2 with
        | nil => intro acc2 hacc2 _; exact hacc2
        | cons ac rest2 ih2 =>
            intro acc2 hacc2 hcfg
            simp only [List.foldl_cons]
            refine ih2 (formatAddressCall acc2 ac) ?_ ?_
            · exact formatAddressCall_keeps_none a nm acc2 ac hacc2
                (fun h => hcfg ac (by simp) h)
            · intro ac2 hac2
              exact hcfg ac2 (List.mem_cons_of_mem _ hac2)
      · intro cfg2 hcfg2
        exact hres2 cfg2 (List.mem_cons_of_mem _ hcfg2)

namespace P0

lemma executeP0_contractsState (env : Web3Env) (cache : String → Abi)
    (sf gf : Bool) (rc : List String) (groups : List ContractGroup) (bh br : Nat) :
    (executeP0 env cache sf gf rc groups bh br).contractsState =
      formatContractsState
        (expandGroups env (buildBlocks env.currentBlockNumber bh br) cache rc groups).1 := rfl

lemma executeP0_flatState (env : Web3Env) (cache : String → Abi)
    (sf gf : Bool) (rc : List String) (groups : List ContractGroup) (bh br : Nat) :
    (executeP0 env cache sf gf rc groups bh br).flatState =
      (executeP0 env cache sf gf rc groups bh br).contractsState.map (flattenArgs sf) := rfl

lemma addMethod_mem_calls (env : Web3Env) (blocks : List Int) (abi : Abi)
    (a : String) (m : MethodSpec) (d : CallDesc)
    (hd : d ∈ (addMethodToBatch env blocks abi a m).2) :
    d.address = a ∧ d.methodName = m.name ∧
      (abi.find? (fun f => f.name = some m.name)).isSome := by
  match hf : abi.find? (fun f => f.name = some m.name) with
  | none => simp [addMethodToBatch, hf] at hd
  | some fld =>
      simp only [addMethodToBatch, hf, List.map_map] at hd
      rcases List.mem_map.mp hd with ⟨b, _, hdb⟩
      refine ⟨?_, ?_, ?_⟩
      · rw [← hdb]
        rfl
      · rw [← hdb]
        rfl
      · rw [hf]
        rfl

lemma addMethod_result_method (env : Web3Env) (blocks : List Int) (abi : Abi)
    (a : String) (m : MethodSpec) (r : MethodResultG (List BlockVal))
    (hr : (addMethodToBatch env blocks abi a m).1 = some r) :
    r.method = m.name ∧ (abi.find? (fun f => f.name = some m.name)).isSome := by
  match hf : abi.find? (fun f => f.name = some m.name) with
  | none => simp [addMethodToBatch, hf] at hr
  | some fld =>
      simp only [addMethodToBatch, hf] at hr
      injection hr with hr2
      refine ⟨?_, ?_⟩
      · rw [← hr2]
      · rw [hf]
        rfl

lemma addContract_mem_calls (env : Web3Env) (blocks : List Int)
    (cache : String → Abi) (rc : List String) (g : ContractGroup) (d : CallDesc)
    (hd : d ∈ (addContractToBatch env blocks cache rc g).2) :
    ∃ a2 ∈ g.addresses,
      d ∈ (addAddressToBatch env blocks cache rc g.readMethods g.allReadMethods
            g.nspace a2).2 := by
  simp only [addContractToBatch, List.flatMap_map] at hd
  exact List.mem_flatMap.mp hd

lemma addAddress_mem_calls (env : Web3Env) (blocks : List Int)
    (cache : String → Abi) (rc : List String) (rm : List MethodSpec) (arm : Bool)
    (ns a2 : String) (d : CallDesc)
    (hd : d ∈ (addAddressToBatch env blocks cache rc rm arm ns a2).2) :
    ∃ m, d ∈ (addMethodToBatch env blocks (cache a2) a2 m).2 := by
  simp only [addAddressToBatch, List.flatMap_map] at hd
  rcases List.mem_flatMap.mp hd with ⟨m, _, hdm⟩
  exact ⟨m, hdm⟩

lemma addAddress_state_mem (env : Web3Env) (blocks : List Int)
    (cache : String → Abi) (rc : List String) (rm : List MethodSpec) (arm : Bool)
    (ns a2 : String) (r? : Option (MethodResultG (List BlockVal)))
    (hr : r? ∈ (addAddressToBatch env blocks cache rc rm arm ns a2).1.state) :
    ∃ m, r? = (addMethodToBatch env blocks (cache a2) a2 m).1 := by
  simp only [addAddressToBatch, List.map_map] at hr
  rcases List.mem_map.mp hr with ⟨m, _, hrm⟩
  exact ⟨m, hrm.symm⟩

lemma expand_cfg_mem (env : Web3Env) (blocks : List Int) (cache : String → Abi)
    (rc : List String) (groups : List ContractGroup)
    (cfg : List (AddressCallG (List BlockVal)))
    (hcfg : cfg ∈ (expandGroups env blocks cache rc groups).1) :
    ∃ g ∈ groups, cfg = (addContractToBatch env blocks cache rc g).1 := by
  simp only [expandGroups, List.map_map] at hcfg
  rcases List.mem_map.mp hcfg with ⟨g, hg, hc⟩
  exact ⟨g, hg, hc.symm⟩

lemma addContract_fst_mem (env : Web3Env) (blocks : List Int)
    (cache : String → Abi) (rc : List String) (g : ContractGroup)
    (ac : AddressCallG (List BlockVal))
    (hac : ac ∈ (addContractToBatch env blocks cache rc g).1) :
    ∃ a2 ∈ g.addresses,
      ac = (addAddressToBatch env blocks cache rc g.readMethods g.allReadMethods
            g.nspace a2).1 := by
  simp only [addContractToBatch, List.map_map] at hac
  rcases List.mem_map.mp hac with ⟨a2, ha2, hc⟩
  exact ⟨a2, ha2, hc.symm⟩

end P0

/-- Claim C6 (confirmed).  A request naming a method absent from the
target's callable surface is skipped silently: the model raises nothing
(the method promise resolves with a falsy result), no request for that
(address, method) pair is registered, and neither the reduced
`contractsState` nor the flattened ResultTree has an entry under that
method name for that address. -/
theorem c6_absent_method_skipped (env : Web3Env) (cache : String → Abi)
    (sf gf : Bool) (rc : List String) (groups : List ContractGroup) (bh br : Nat)
    (a nm : String)
    (hmiss : (cache a).find? (fun f => f.name = some nm) = none) :
    (∀ d ∈ (P0.executeP0 env cache sf gf rc groups bh br).calls,
        d.address = a → d.methodName ≠ nm)
    ∧ (∀ node ∈ (P0.executeP0 env cache sf gf rc groups bh br).contractsState,
        node.address = a → lookupKey node.state nm = none)
    ∧ (∀ node ∈ (P0.executeP0 env cache sf gf rc groups bh br).flatState,
        node.address = a → lookupKey node.state nm = none) := by
  have hstate : ∀ node ∈ (P0.executeP0 env cache sf gf rc groups bh br).contractsState,
      node.address = a → lookupKey node.state nm = none := by
    rw [P0.executeP0_contractsState]
    apply formatContractsState_keeps_none
    intro cfg hcfg ac hac haca r? hr? r hr
    rcases P0.expand_cfg_mem env _ cache rc groups cfg hcfg with ⟨g, hg, hcfge⟩
    subst hcfge
    rcases P0.addContract_fst_mem env _ cache rc g ac hac with ⟨a2, ha2, hace⟩
    subst hace
    have ha2a : a2 = a := haca
    subst ha2a
    rcases P0.addAddress_state_mem env _ cache rc g.readMethods g.allReadMethods
        g.nspace a2 r? hr? with ⟨m, hrm⟩
    rw [hrm] at hr
    have hres := P0.addMethod_result_method env _ (cache a2) a2 m r hr
    intro hmn
    have hmn2 : m.name = nm := by rw [← hres.1, hmn]
    have hsome := hres.2
    rw [hmn2, hmiss] at hsome
    simp at hsome
  refine ⟨?_, hstate, ?_⟩
  · intro d hd hda hdm
    rw [P0.executeP0_calls] at hd
    rcases List.mem_flatMap.mp hd with ⟨g, hg, hd2⟩
    rcases P0.addContract_mem_calls env _ cache rc g d hd2 with ⟨a2, ha2, hd3⟩
    rcases P0.addAddress_mem_calls env _ cache rc g.readMethods g.allReadMethods
        g.nspace a2 d hd3 with ⟨m, hd4⟩
    rcases P0.addMethod_mem_calls env _ (cache a2) a2 m d hd4 with ⟨hda2, hdn2, hsome⟩
    rw [hda] at hda2
    rw [hda2.symm] at hsome
    rw [hdm] at hdn2
    rw [← hdn2] at hsome
    rw [hmiss] at hsome
    simp at hsome
  · rw [P0.executeP0_flatState]
    intro node hnode hna
    rcases List.mem_map.mp hnode with ⟨n0, hn0, hne⟩
    rw [← hne] at hna ⊢
    show lookupKey (n0.state.map (fun p => (p.1, P0.flattenEntry sf p.2))) nm = none
    rw [lookupKey_map_snd]
    rw [hstate n0 hn0 hna]
    rfl

/-- Witness for C6: a request for a method name absent from the demo ABI
registers nothing and leaves no entry anywhere in the trees. -/
theorem c6_witness :
    (∀ d ∈ (P0.executeP0 demoEnv demoCache false false [] [demoGroup] 1 1).calls,
        d.address = "0xA" → d.methodName ≠ "mintRocks")
    ∧ (∀ node ∈ (P0.executeP0 demoEnv demoCache false false [] [demoGroup] 1 1).contractsState,
        node.address = "0xA" → lookupKey node.state "mintRocks" = none)
    ∧ (∀ node ∈ (P0.executeP0 demoEnv demoCache false false [] [demoGroup] 1 1).flatState,
        node.address = "0xA" → lookupKey node.state "mintRocks" = none) :=
  c6_absent_method_skipped demoEnv demoCache false false [] [demoGroup] 1 1
    "0xA" "mintRocks" (by decide)

/-- Claim C7 (corrected).  `flattenArgs` collapses a method entry to a
bare scalar exactly when `simplifyResponse` is on, the entry has exactly
one argument-signature bucket, and that bucket's single block sample
carries a truthy value; with the option off, or with several buckets,
the entry stays the (per-bucket mutated) array.  The fallback for a
one-bucket entry without a truthy scalar exposes the per-block list only
when that list still exists (several block samples, or zero); when the
single block sample's value is falsy (an errored call, or the empty
string) the `values` key was already deleted by the per-bucket mutation,
so the entry becomes undefined rather than the per-block list.  The
`simplifyResponse = true` single-address zero-argument scenario yields
`{ address, namespace, method : scalar }`. -/
theorem c7_simplify_response :
    (∀ bl : List (BucketG (List BlockVal)),
        P0.flattenEntry false bl = P0.FlatEntry.arr (bl.map P0.flattenVal))
    ∧ (∀ (sf : Bool) (bl : List (BucketG (List BlockVal))), bl.length ≠ 1 →
        P0.flattenEntry sf bl = P0.FlatEntry.arr (bl.map P0.flattenVal))
    ∧ (∀ (b : BucketG (List BlockVal)) (bv : BlockVal) (s : String),
        b.val = [bv] → bv.value = some s → s ≠ "" →
          P0.flattenEntry true [b] = P0.FlatEntry.scalar s)
    ∧ (∀ b : BucketG (List BlockVal), b.val.length ≠ 1 →
        P0.flattenEntry true [b] = P0.FlatEntry.blockVals b.val)
    ∧ (∀ (b : BucketG (List BlockVal)) (bv : BlockVal),
        b.val = [bv] → (bv.value = none ∨ bv.value = some "") →
          P0.flattenEntry true [b] = P0.FlatEntry.undef)
    ∧ (P0.executeP0 demoEnv demoCache true false [] [demoGroup] 1 1).flatState =
        [P0.FlatNode.mk "0xA" "default" [("totalSupply", P0.FlatEntry.scalar "7")]] := by
  refine ⟨?_, ?_, ?_, ?_, ?_, by decide⟩
  · intro bl
    simp [P0.flattenEntry]
  · intro sf bl hlen
    simp [P0.flattenEntry, hlen]
  · intro b bv s hval hbv hs
    rcases b with ⟨vals, inp, args⟩
    simp only at hval
    subst hval
    simp [P0.flattenEntry, P0.flattenVal, hbv, hs]
  · intro b hlen
    rcases b with ⟨vals, inp, args⟩
    simp only at hlen
    match vals with
    | [] => simp [P0.flattenEntry, P0.flattenVal, P0.flattenFallback]
    | v1 :: v2 :: rest => simp [P0.flattenEntry, P0.flattenVal, P0.flattenFallback]
    | [v1] => simp at hlen
  · intro b bv hval hbv
    rcases b with ⟨vals, inp, args⟩
    simp only at hval
    subst hval
    rcases hbv with h | h
    · simp [P0.flattenEntry, P0.flattenVal, P0.flattenFallback, h]
    · simp [P0.flattenEntry, P0.flattenVal, P0.flattenFallback, h]

/-- Witness for C7: the hypothesis-bearing parts applied to concrete
buckets. -/
theorem c7_witness :
    P0.flattenEntry true [BucketG.mk [BlockVal.mk (some "9") 100] none none] =
        P0.FlatEntry.scalar "9"
    ∧ P0.flattenEntry true [BucketG.mk [BlockVal.mk (some "9") 99, BlockVal.mk (some "9") 100] none none] =
        P0.FlatEntry.blockVals [BlockVal.mk (some "9") 99, BlockVal.mk (some "9") 100]
    ∧ P0.flattenEntry true [BucketG.mk [BlockVal.mk none 100] none none] =
        P0.FlatEntry.undef
    ∧ P0.flattenEntry false [BucketG.mk [BlockVal.mk (some "9") 100] none none] =
        P0.FlatEntry.arr [P0.flattenVal (BucketG.mk [BlockVal.mk (some "9") 100] none none)] :=
  ⟨c7_simplify_response.2.2.1 (BucketG.mk [BlockVal.mk (some "9") 100] none none)
      (BlockVal.mk (some "9") 100) "9" rfl rfl (by decide),
   c7_simplify_response.2.2.2.1 (BucketG.mk [BlockVal.mk (some "9") 99, BlockVal.mk (some "9") 100] none none)
      (by decide),
   c7_simplify_response.2.2.2.2.1 (BucketG.mk [BlockVal.mk none 100] none none)
      (BlockVal.mk none 100) rfl (Or.inl rfl),
   c7_simplify_response.1 [BucketG.mk [BlockVal.mk (some "9") 100] none none]⟩

/-- Counterexample for C7 as stated: `simplifyResponse = true`, one
address, one zero-argument method, a single block sample whose call
errored — no scalar is available, and the entry does NOT fall back to
the still-nested per-block values: it becomes undefined (the `values`
key was deleted before the fallback read it). -/
theorem c7_counterexample :
    (P0.executeP0 errEnv demoCache true false [] [demoGroup] 1 1).flatState =
        [P0.FlatNode.mk "0xA" "default" [("totalSupply", P0.FlatEntry.undef)]]
    ∧ P0.FlatEntry.undef ≠ P0.FlatEntry.blockVals [BlockVal.mk none 100] := by
  exact ⟨by decide, by decide⟩

lemma flatMapExt (l : List α) (f g : α → List β) (h : ∀ x ∈ l, f x = g x) :
    l.flatMap f = l.flatMap g := by
  induction l with
  | nil => rfl
  | cons x rest ih =>
      simp only [List.flatMap_cons]
      rw [h x (by simp), ih (fun y hy => h y (List.mem_cons_of_mem x hy))]

namespace P0

lemma addMethod_calls_transport (cur : Int)
    (t1 t2 : String → String → List String → Option Int → Except String String)
    (enc : AbiField → List String → String) (blocks : List Int) (abi : Abi)
    (a : String) (m : MethodSpec) :
    (addMethodToBatch (Web3Env.mk cur t2 enc) blocks abi a m).2 =
      (addMethodToBatch (Web3Env.mk cur t1 enc) blocks abi a m).2 := by
  match hf : abi.find? (fun f => f.name = some m.name) with
  | none => simp [addMethodToBatch, hf]
  | some fld => simp [addMethodToBatch, hf, List.map_map]

lemma addMethod_result_values (env : Web3Env) (blocks : List Int) (abi : Abi)
    (a : String) (m : MethodSpec) (fld : AbiField)
    (hf : abi.find? (fun f => f.name = some m.name) = some fld) :
    ∃ r, (addMethodToBatch env blocks abi a m).1 = some r ∧
      r.val = blocks.map (fun b =>
        BlockVal.mk (env.transport a m.name ((m.args.getD []).take fld.inputs) (some b)).toOption b) := by
  simp only [addMethodToBatch, hf]
  exact ⟨_, rfl, by simp [List.map_map]⟩

lemma addAddress_calls_transport (cur : Int)
    (t1 t2 : String → String → List String → Option Int → Except String String)
    (enc : AbiField → List String → String) (blocks : List Int)
    (cache : String → Abi) (rc : List String) (rm : List MethodSpec) (arm : Bool)
    (ns a : String) :
    (addAddressToBatch (Web3Env.mk cur t2 enc) blocks cache rc rm arm ns a).2 =
      (addAddressToBatch (Web3Env.mk cur t1 enc) blocks cache rc rm arm ns a).2 := by
  simp only [addAddressToBatch, List.flatMap_map]
  exact flatMapExt _ _ _ (fun m _ => addMethod_calls_transport cur t1 t2 enc blocks (cache a) a m)

lemma addContract_calls_transport (cur : Int)
    (t1 t2 : String → String → List String → Option Int → Except String String)
    (enc : AbiField → List String → String) (blocks : List Int)
    (cache : String → Abi) (rc : List String) (g : ContractGroup) :
    (addContractToBatch (Web3Env.mk cur t2 enc) blocks cache rc g).2 =
      (addContractToBatch (Web3Env.mk cur t1 enc) blocks cache rc g).2 := by
  simp only [addContractToBatch, List.flatMap_map]
  exact flatMapExt _ _ _ (fun a2 _ =>
    addAddress_calls_transport cur t1 t2 enc blocks cache rc g.readMethods
      g.allReadMethods g.nspace a2)

end P0

/-- Claim C4 (corrected).  In the block-sampling variant a per-call
transport error is indeed recovered locally: a resolved method's
per-block values are exactly the transport's pointwise answers (an
errored call contributes `value = none` at its own block and nothing
else), and the set of registered requests does not depend on the
transport at all, so the rest of the batch proceeds.  In the plain
variant (src/batchCall.js) the same situation aborts the whole batch:
the callback rejects the method promise and `execute` resolves to
`{ error: message }` with no partial tree, as the concrete conjuncts
show (both requests are registered, one errors, the whole result is the
error value). -/
theorem c4_per_call_error_handling :
    (∀ (env : Web3Env) (blocks : List Int) (abi : Abi) (a : String)
       (m : MethodSpec) (fld : AbiField),
        abi.find? (fun f => f.name = some m.name) = some fld →
          ∃ r, (P0.addMethodToBatch env blocks abi a m).1 = some r ∧
            r.val = blocks.map (fun b =>
              BlockVal.mk (env.transport a m.name ((m.args.getD []).take fld.inputs)
                (some b)).toOption b))
    ∧ (∀ (cur : Int)
         (t1 t2 : String → String → List String → Option Int → Except String String)
         (enc : AbiField → List String → String) (cache : String → Abi)
         (sf gf : Bool) (rc : List String) (groups : List ContractGroup) (bh br : Nat),
        (P0.executeP0 (Web3Env.mk cur t2 enc) cache sf gf rc groups bh br).calls =
          (P0.executeP0 (Web3Env.mk cur t1 enc) cache sf gf rc groups bh br).calls)
    ∧ (BC.executeBC (fun _ => "h") none (fun _ => none) bcErrEnv false false
          BC.emptyCache [bcGroup] none).result = BC.BCResult.errorValue "boom"
    ∧ ((BC.executeBC (fun _ => "h") none (fun _ => none) bcErrEnv false false
          BC.emptyCache [bcGroup] none).calls).length = 2 := by
  refine ⟨?_, ?_, rfl, by decide⟩
  · intro env blocks abi a m fld hf
    exact P0.addMethod_result_values env blocks abi a m fld hf
  · intro cur t1 t2 enc cache sf gf rc groups bh br
    rw [P0.executeP0_calls, P0.executeP0_calls]
    exact flatMapExt _ _ _ (fun g _ =>
      P0.addContract_calls_transport cur t1 t2 enc _ cache rc g)

/-- Witness for C4: the pointwise-values part applied to the demo method
over two blocks under the failing transport — the errored samples are
`none` while the shape survives. -/
theorem c4_witness :
    ∃ r, (P0.addMethodToBatch errEnv [99, 100] demoAbi "0xA"
            (MethodSpec.mk "totalSupply" none false)).1 = some r ∧
      r.val = [99, 100].map (fun b =>
        BlockVal.mk (errEnv.transport "0xA" "totalSupply"
          (((MethodSpec.mk "totalSupply" none false).args.getD []).take 0) (some b)).toOption b) :=
  c4_per_call_error_handling.1 errEnv [99, 100] demoAbi "0xA"
    (MethodSpec.mk "totalSupply" none false)
    (AbiField.mk (some "totalSupply") 0 1 "view" false) (by decide)

/-- Counterexample for C4 as stated: in src/batchCall.js a single
per-call transport error is not recovered locally — with two methods in
the batch and one failing, `execute` resolves to the bare error value,
so the other method's result is lost with the whole batch. -/
theorem c4_counterexample :
    (BC.executeBC (fun _ => "h") none (fun _ => none) bcErrEnv false false
        BC.emptyCache [bcGroup] none).result = BC.BCResult.errorValue "boom" := rfl

/-- Claim C8 (corrected).  The block-sampling variant truncates supplied
arguments to the resolved field's declared arity
(`_.take(args, nbrAbiArgsForMethod)`) and proceeds normally — every
registered request carries the truncated arguments and the method
promise still resolves.  The plain variant (src/batchCall.js) does not
truncate: the registered request carries the supplied arguments
unchanged, whatever the declared arity. -/
theorem c8_arity_truncation :
    (∀ (env : Web3Env) (blocks : List Int) (abi : Abi) (a : String)
       (m : MethodSpec) (fld : AbiField) (as : List String),
        abi.find? (fun f => f.name = some m.name) = some fld →
        m.args = some as →
          (P0.addMethodToBatch env blocks abi a m).2 =
            blocks.map (fun b => CallDesc.mk a m.name (as.take fld.inputs) (some b))
          ∧ ((P0.addMethodToBatch env blocks abi a m).1).isSome)
    ∧ (∀ (env : Web3Env) (blockNumber : Option Int) (abi : Abi) (a : String)
         (m : MethodSpec) (fld : AbiField) (as : List String),
        abi.find? (fun f => f.name = some m.name) = some fld →
        m.args = some as →
          (BC.addMethodToBatch env blockNumber abi a m).1 =
            some (CallDesc.mk a m.name as blockNumber)) := by
  constructor
  · intro env blocks abi a m fld as hf hargs
    constructor
    · simp [P0.addMethodToBatch, hf, hargs, List.map_map]
    · simp [P0.addMethodToBatch, hf]
  · intro env blockNumber abi a m fld as hf hargs
    have hargs2 : m.args.getD [] = as := by rw [hargs]; rfl
    rcases ht : env.transport a m.name as blockNumber with e | v <;>
      simp [BC.addMethodToBatch, hf, hargs, hargs2, ht]

/-- Witness for C8: three supplied arguments against a one-argument
field — the block-sampling variant registers the truncated single
argument, the plain variant registers all three. -/
theorem c8_witness :
    ((P0.addMethodToBatch demoEnv [100] demoAbi "0xA"
        (MethodSpec.mk "balanceOf" (some ["x", "y", "z"]) false)).2 =
      [100].map (fun b => CallDesc.mk "0xA" "balanceOf" (["x", "y", "z"].take 1) (some b))
    ∧ ((P0.addMethodToBatch demoEnv [100] demoAbi "0xA"
        (MethodSpec.mk "balanceOf" (some ["x", "y", "z"]) false)).1).isSome)
    ∧ (BC.addMethodToBatch demoEnv none demoAbi "0xA"
        (MethodSpec.mk "balanceOf" (some ["x", "y", "z"]) false)).1 =
      some (CallDesc.mk "0xA" "balanceOf" ["x", "y", "z"] none) :=
  ⟨c8_arity_truncation.1 demoEnv [100] demoAbi "0xA"
      (MethodSpec.mk "balanceOf" (some ["x", "y", "z"]) false)
      (AbiField.mk (some "balanceOf") 1 1 "view" false) ["x", "y", "z"] (by decide) rfl,
   c8_arity_truncation.2 demoEnv none demoAbi "0xA"
      (MethodSpec.mk "balanceOf" (some ["x", "y", "z"]) false)
      (AbiField.mk (some "balanceOf") 1 1 "view" false) ["x", "y", "z"] (by decide) rfl⟩

/-- Counterexample for C8 as stated: in src/batchCall.js the registered
request for a one-argument field carries all three supplied arguments —
nothing is truncated to the declared arity. -/
theorem c8_counterexample :
    (BC.addMethodToBatch demoEnv none demoAbi "0xA"
        (MethodSpec.mk "balanceOf" (some ["x", "y", "z"]) false)).1 =
      some (CallDesc.mk "0xA" "balanceOf" ["x", "y", "z"] none)
    ∧ demoAbi.find? (fun f => f.name = some "balanceOf") =
        some (AbiField.mk (some "balanceOf") 1 1 "view" false)
    ∧ (["x", "y", "z"] : List String) ≠ ["x", "y", "z"].take 1 := by
  exact ⟨by decide, by decide, by decide⟩

lemma filterMapComm (f : α → β) (p : β → Bool) :
    ∀ l : List α, (l.map f).filter p = (l.filter (fun x => p (f x))).map f := by
  intro l
  induction l with
  | nil => rfl
  | cons x rest ih =>
      simp only [List.map_cons, List.filter_cons]
      cases hp : p (f x)
      · simpa [hp] using ih
      · simpa [hp] using ih

lemma filterSubsume (p q : α → Bool) (h : ∀ x, p x = true → q x = true) :
    ∀ l : List α, (l.filter q).filter p = l.filter p := by
  intro l
  induction l with
  | nil => rfl
  | cons x rest ih =>
      cases hp : p x
      · cases hq : q x
        · simp [List.filter_cons, hp, hq, ih]
        · simp [List.filter_cons, hp, hq, ih]
      · have hq := h x hp
        simp [List.filter_cons, hp, hq, ih]

lemma filterNotPerm (p : α → Bool) :
    ∀ l : List α, (l.filter p ++ l.filter (fun x => !(p x))).Perm l := by
  intro l
  induction l with
  | nil => simp
  | cons x rest ih =>
      cases hp : p x
      · simp only [List.filter_cons, hp, Bool.not_false, if_neg, if_pos, ite_true,
          ite_false]
        exact List.Perm.trans List.perm_middle (ih.cons x)
      · simp only [List.filter_cons, hp, Bool.not_true, ite_true, ite_false,
          List.cons_append]
        exact ih.cons x

lemma memTakeWhile (p : α → Bool) :
    ∀ (l : List α) (x : α), x ∈ l.takeWhile p → p x = true := by
  intro l
  induction l with
  | nil => intro x h; cases h
  | cons a rest ih =>
      intro x h
      cases hp : p a
      · rw [List.takeWhile_cons, hp] at h
        cases h
      · rw [List.takeWhile_cons, hp] at h
        rcases List.mem_cons.mp h with h2 | h2
        · rw [h2]; exact hp
        · exact ih x h2

lemma lengthDropWhileLe (p : α → Bool) :
    ∀ l : List α, (l.dropWhile p).length ≤ l.length := by
  intro l
  induction l with
  | nil => simp
  | cons a rest ih =>
      rw [List.dropWhile_cons]
      cases hp : p a
      · simp
      · simp only [if_true]
        exact Nat.le_succ_of_le ih

lemma dropWhileMap (f : α → β) (p : β → Bool) :
    ∀ l : List α, (l.map f).dropWhile p = (l.dropWhile (fun x => p (f x))).map f := by
  intro l
  induction l with
  | nil => rfl
  | cons a rest ih =>
      simp only [List.map_cons, List.dropWhile_cons]
      cases hp : p (f a)
      · simp [hp]
      · simpa [hp] using ih

lemma takeDropAppend (p : α → Bool) :
    ∀ l : List α, l.takeWhile p ++ l.dropWhile p = l := by
  intro l
  induction l with
  | nil => rfl
  | cons a rest ih =>
      rw [List.takeWhile_cons, List.dropWhile_cons]
      cases hp : p a
      · simp
      · simpa using ih

lemma dedupKeysAux_filter (a : String) :
    ∀ (l seen : List String),
      dedupKeysAux (a :: seen) l = dedupKeysAux seen (l.filter (fun x => ¬(x = a))) := by
  intro l
  induction l with
  | nil => intro seen; rfl
  | cons b t ih =>
      intro seen
      by_cases hba : b = a
      · subst hba
        rw [dedupKeysAux, if_pos (by simp)]
        rw [show (b :: t).filter (fun x => ¬(x = b)) = t.filter (fun x => ¬(x = b)) by
            simp [List.filter_cons]]
        exact ih seen
      · rw [show (b :: t).filter (fun x => ¬(x = a)) = b :: t.filter (fun x => ¬(x = a)) by
            simp [List.filter_cons, hba]]
        by_cases hbs : b ∈ seen
        · rw [dedupKeysAux, if_pos (by simp [hbs])]
          rw [dedupKeysAux, if_pos hbs]
          exact ih seen
        · rw [dedupKeysAux, if_neg (by simp [hbs, hba])]
          rw [dedupKeysAux, if_neg hbs]
          refine congrArg (List.cons b) ?_
          rw [dedupKeysAux_congr t (b :: a :: seen) (a :: b :: seen) (by intro x; simp; tauto)]
          exact ih (b :: seen)

lemma dedupKeys_cons (a : String) (l : List String) :
    dedupKeys (a :: l) = a :: dedupKeys (l.filter (fun x => ¬(x = a))) := by
  unfold dedupKeys
  rw [dedupKeysAux, if_neg (by simp)]
  exact congrArg (List.cons a) (dedupKeysAux_filter a l [])

lemma mem_dedupKeysAux (k : String) :
    ∀ (l seen : List String), k ∈ dedupKeysAux seen l → k ∈ l := by
  intro l
  induction l with
  | nil => intro seen h; cases h
  | cons a t ih =>
      intro seen h
      rw [dedupKeysAux] at h
      by_cases ha : a ∈ seen
      · rw [if_pos ha] at h
        exact List.mem_cons_of_mem a (ih seen h)
      · rw [if_neg ha] at h
        rcases List.mem_cons.mp h with h2 | h2
        · rw [h2]; simp
        · exact List.mem_cons_of_mem a (ih (a :: seen) h2)

lemma mem_dedupKeysAux_of (k : String) :
    ∀ (l seen : List String), k ∈ l → k ∉ seen → k ∈ dedupKeysAux seen l := by
  intro l
  induction l with
  | nil => intro seen h _; cases h
  | cons a t ih =>
      intro seen hk hks
      by_cases ha : a ∈ seen
      · rw [dedupKeysAux, if_pos ha]
        rcases List.mem_cons.mp hk with h | h
        · exact absurd (by rw [h]; exact ha) hks
        · exact ih seen h hks
      · rw [dedupKeysAux, if_neg ha]
        rcases List.mem_cons.mp hk with h | h
        · rw [h]; simp
        · by_cases hka : k = a
          · rw [hka]; simp
          · refine List.mem_cons_of_mem a (ih (a :: seen) h ?_)
            intro hmem
            rcases List.mem_cons.mp hmem with h2 | h2
            · exact hka h2
            · exact hks h2

lemma dedupKeysAux_nodup :
    ∀ (l seen : List String),
      (∀ x ∈ dedupKeysAux seen l, x ∉ seen) ∧ (dedupKeysAux seen l).Nodup := by
  intro l
  induction l with
  | nil =>
      intro seen
      refine ⟨?_, ?_⟩
      · intro x h
        simp [dedupKeysAux] at h
      · simp [dedupKeysAux]
  | cons a t ih =>
      intro seen
      by_cases ha : a ∈ seen
      · rw [dedupKeysAux, if_pos ha]
        exact ih seen
      · rw [dedupKeysAux, if_neg ha]
        have iht := ih (a :: seen)
        constructor
        · intro x hx
          rcases List.mem_cons.mp hx with h | h
          · rw [h]; exact ha
          · intro hxs
            exact iht.1 x h (List.mem_cons_of_mem a hxs)
        · rw [List.nodup_cons]
          refine ⟨?_, iht.2⟩
          intro hax
          exact iht.1 a hax (by simp)

lemma mem_dedupKeys_iff (k : String) (l : List String) : k ∈ dedupKeys l ↔ k ∈ l := by
  constructor
  · exact mem_dedupKeysAux k l []
  · intro h
    exact mem_dedupKeysAux_of k l [] h (by simp)

lemma jsOwnKeys_eq_dedupKeys (l : List String)
    (h : ∀ k ∈ l, isArrayIndexKey k = false) : jsOwnKeys l = dedupKeys l := by
  unfold jsOwnKeys
  have h1 : l.filter isArrayIndexKey = [] :=
    List.filter_eq_nil_iff.mpr (by intro a ha; simp [h a ha])
  have h2 : l.filter (fun k => !(isArrayIndexKey k)) = l :=
    List.filter_eq_self.mpr (by intro a ha; simp [h a ha])
  rw [h1, h2]
  rfl

lemma mem_jsOwnKeys_iff (k : String) (l : List String) : k ∈ jsOwnKeys l ↔ k ∈ l := by
  unfold jsOwnKeys
  rw [List.mem_append]
  constructor
  · intro h
    rcases h with h | h
    · have h2 := (List.perm_insertionSort
        (fun a b => numKeyVal a ≤ numKeyVal b) _).mem_iff.mp h
      have h3 := (mem_dedupKeys_iff k _).mp h2
      exact List.mem_of_mem_filter h3
    · exact List.mem_of_mem_filter ((mem_dedupKeys_iff k _).mp h)
  · intro h
    cases hidx : isArrayIndexKey k
    · right
      refine (mem_dedupKeys_iff k _).mpr ?_
      exact List.mem_filter.mpr ⟨h, by simp [hidx]⟩
    · left
      refine (List.perm_insertionSort _ _).mem_iff.mpr ?_
      refine (mem_dedupKeys_iff k _).mpr ?_
      exact List.mem_filter.mpr ⟨h, by simp [hidx]⟩

lemma jsOwnKeys_nodup (l : List String) : (jsOwnKeys l).Nodup := by
  unfold jsOwnKeys
  refine List.Nodup.append ?_ ?_ ?_
  · exact ((List.perm_insertionSort _ _).nodup_iff).mpr
      (dedupKeysAux_nodup (l.filter isArrayIndexKey) []).2
  · exact (dedupKeysAux_nodup (l.filter (fun k => !(isArrayIndexKey k))) []).2
  · intro x hx1 hx2
    have h1 := (List.perm_insertionSort _ _).mem_iff.mp hx1
    have h2 := (mem_dedupKeys_iff x _).mp h1
    have hidx : isArrayIndexKey x = true := (List.mem_filter.mp h2).2
    have h3 := (mem_dedupKeys_iff x _).mp hx2
    have hnidx := (List.mem_filter.mp h3).2
    simp [hidx] at hnidx

lemma nsRoundtrip_canonical (l : List P0.FlatNode) :
    P0.nsRoundtrip l =
      (jsOwnKeys (l.map (fun n => n.nspace))).flatMap
        (fun k => l.filter (fun n => n.nspace = k)) := by
  unfold P0.nsRoundtrip P0.regroupFlatten P0.groupedOutput
  rw [List.flatMap_map]
  refine flatMapExt _ _ _ ?_
  intro k _
  simp only [List.map_map]
  have hid : ∀ n ∈ l.filter (fun n => n.nspace = k),
      ((fun q => P0.FlatNode.mk q.1 k q.2) ∘ fun n => (n.address, n.state)) n = n := by
    intro n hn
    have hk : n.nspace = k := by
      have := List.of_mem_filter hn
      simpa using this
    cases n
    simp only [Function.comp_apply]
    rw [← hk]
  rw [List.map_congr_left hid]
  simp

lemma keyedFlatMapPerm :
    ∀ (K : List String) (l : List P0.FlatNode), K.Nodup →
      (∀ x, x ∈ K ↔ x ∈ l.map (fun n => n.nspace)) →
      (K.flatMap (fun k => l.filter (fun n => n.nspace = k))).Perm l := by
  intro K
  induction K with
  | nil =>
      intro l _ hmem
      have hl : l = [] := by
        cases l with
        | nil => rfl
        | cons n t =>
            exfalso
            have hin : n.nspace ∈ ([] : List String) := (hmem n.nspace).mpr (by simp)
            cases hin
      subst hl
      simp
  | cons k K ih =>
      intro l hnd hmem
      rw [List.flatMap_cons]
      have hknotin : k ∉ K := (List.nodup_cons.mp hnd).1
      have hndK : K.Nodup := (List.nodup_cons.mp hnd).2
      have hbuckets : ∀ x ∈ K, l.filter (fun n => n.nspace = x) =
          (l.filter (fun n => ¬(n.nspace = k))).filter (fun n => n.nspace = x) := by
        intro x hx
        have hxk : ¬(x = k) := fun h => hknotin (h ▸ hx)
        refine (filterSubsume (fun n => n.nspace = x) (fun n => ¬(n.nspace = k)) ?_ l).symm
        intro n hn
        simp only [decide_eq_true_eq] at hn
        simp [hn, hxk]
      have hmem2 : ∀ x, x ∈ K ↔
          x ∈ (l.filter (fun n => ¬(n.nspace = k))).map (fun n => n.nspace) := by
        intro x
        constructor
        · intro hx
          have hxl := (hmem x).mp (List.mem_cons_of_mem k hx)
          rcases List.mem_map.mp hxl with ⟨n, hn, hnx⟩
          have hxk : ¬(x = k) := fun h => hknotin (h ▸ hx)
          refine List.mem_map.mpr ⟨n, ?_, hnx⟩
          refine List.mem_filter.mpr ⟨hn, ?_⟩
          simp [hnx, hxk]
        · intro hx
          rcases List.mem_map.mp hx with ⟨n, hn, hnx⟩
          have hn2 := List.mem_filter.mp hn
          have hnk : ¬(n.nspace = k) := by simpa using hn2.2
          have hxl : x ∈ l.map (fun n => n.nspace) := List.mem_map.mpr ⟨n, hn2.1, hnx⟩
          rcases List.mem_cons.mp ((hmem x).mpr hxl) with h | h
          · exfalso
            rw [← hnx] at h
            exact hnk h
          · exact h
      have hflat : K.flatMap (fun x => l.filter (fun n => n.nspace = x)) =
          K.flatMap (fun x =>
            (l.filter (fun n => ¬(n.nspace = k))).filter (fun n => n.nspace = x)) :=
        flatMapExt K _ _ hbuckets
      rw [hflat]
      refine List.Perm.trans
        (List.Perm.append_left _ (ih (l.filter (fun n => ¬(n.nspace = k))) hndK hmem2)) ?_
      have hconv : l.filter (fun n => ¬(n.nspace = k)) =
          l.filter (fun x => !(decide (x.nspace = k))) := by
        apply List.filter_congr
        intro x _
        simp [decide_not]
      rw [hconv]
      exact filterNotPerm (fun n => decide (n.nspace = k)) l

lemma nsRoundtrip_perm (l : List P0.FlatNode) : (P0.nsRoundtrip l).Perm l := by
  rw [nsRoundtrip_canonical]
  exact keyedFlatMapPerm (jsOwnKeys (l.map (fun n => n.nspace))) l
    (jsOwnKeys_nodup _) (fun x => mem_jsOwnKeys_iff x _)

lemma dedup_flatMap_cons (a : P0.FlatNode) (t : List P0.FlatNode) :
    (dedupKeys ((a :: t).map (fun n => n.nspace))).flatMap
        (fun k => (a :: t).filter (fun n => n.nspace = k)) =
      (a :: t.filter (fun n => n.nspace = a.nspace)) ++
        (dedupKeys ((t.filter (fun n => ¬(n.nspace = a.nspace))).map
            (fun n => n.nspace))).flatMap
          (fun k => (t.filter (fun n => ¬(n.nspace = a.nspace))).filter
            (fun n => n.nspace = k)) := by
  simp only [List.map_cons]
  rw [dedupKeys_cons]
  have hfm : (t.map (fun n => n.nspace)).filter (fun x => ¬(x = a.nspace)) =
      (t.filter (fun n => ¬(n.nspace = a.nspace))).map (fun n => n.nspace) :=
    filterMapComm (fun n => n.nspace) (fun x => ¬(x = a.nspace)) t
  rw [hfm]
  rw [List.flatMap_cons]
  have hhead : (a :: t).filter (fun n => n.nspace = a.nspace) =
      a :: t.filter (fun n => n.nspace = a.nspace) := by
    simp [List.filter_cons]
  rw [hhead]
  refine congrArg (List.append (a :: t.filter (fun n => n.nspace = a.nspace))) ?_
  refine flatMapExt _ _ _ ?_
  intro k hk
  have hkne : ¬(k = a.nspace) := by
    have hk2 := mem_dedupKeysAux k _ _ hk
    rcases List.mem_map.mp hk2 with ⟨n, hn, hnk⟩
    have := List.of_mem_filter hn
    intro hka
    rw [← hnk] at hka
    simp [hka] at this
  have hne2 : ¬(a.nspace = k) := fun h => hkne h.symm
  have hdrop : (a :: t).filter (fun n => n.nspace = k) =
      t.filter (fun n => n.nspace = k) := by
    simp [List.filter_cons, hne2]
  rw [hdrop]
  refine (filterSubsume (fun n => n.nspace = k) (fun n => ¬(n.nspace = a.nspace)) ?_ t).symm
  intro x hx
  simp only [decide_eq_true_eq] at hx
  simp [hx, hkne]

lemma nsGroupedGo_fuel :
    ∀ (f1 : Nat) (l : List String) (f2 : Nat), l.length ≤ f1 → l.length ≤ f2 →
      P0.nsGroupedGo f1 l = P0.nsGroupedGo f2 l := by
  intro f1
  induction f1 with
  | zero =>
      intro l f2 h1 _
      have hnil : l = [] := List.eq_nil_of_length_eq_zero (Nat.le_zero.mp h1)
      subst hnil
      cases f2 <;> rfl
  | succ f1 ih =>
      intro l f2 h1 h2
      match l with
      | [] => cases f2 <;> rfl
      | k :: rest =>
          match f2 with
          | 0 => simp at h2
          | f2 + 1 =>
              simp only [P0.nsGroupedGo]
              have hd := lengthDropWhileLe (fun s => decide (s = k)) rest
              simp only [List.length_cons] at h1 h2
              rw [ih (rest.dropWhile (fun s => s = k)) f2 (by omega) (by omega)]

lemma dedup_flatMap_eq_of_grouped :
    ∀ (N : Nat) (l : List P0.FlatNode), l.length ≤ N →
      P0.nsGrouped (l.map (fun n => n.nspace)) = true →
      (dedupKeys (l.map (fun n => n.nspace))).flatMap
          (fun k => l.filter (fun n => n.nspace = k)) = l := by
  intro N
  induction N with
  | zero =>
      intro l hl _
      have hnil : l = [] := List.eq_nil_of_length_eq_zero (Nat.le_zero.mp hl)
      subst hnil
      rfl
  | succ N ih =>
      intro l hl hg
      match l with
      | [] => rfl
      | a :: t =>
          rw [P0.nsGrouped] at hg
          simp only [List.map_cons, List.length_cons, List.length_map] at hg
          simp only [P0.nsGroupedGo, Bool.and_eq_true] at hg
          rw [dropWhileMap (fun n => n.nspace) (fun s => s = a.nspace) t] at hg
          rcases hg with ⟨hall, hgo⟩
          have htl : ∀ n ∈ t.dropWhile (fun n => n.nspace = a.nspace),
              ¬(n.nspace = a.nspace) := by
            intro n hn
            have h2 := List.all_eq_true.mp hall (n.nspace) (List.mem_map_of_mem _ hn)
            simpa using h2
          have hrun : ∀ n ∈ t.takeWhile (fun n => n.nspace = a.nspace),
              n.nspace = a.nspace := by
            intro n hn
            have h2 := memTakeWhile (fun n => decide (n.nspace = a.nspace)) t n hn
            simpa using h2
          have hsplit := takeDropAppend (fun n => decide (n.nspace = a.nspace)) t
          have hlentl : (t.dropWhile (fun n => n.nspace = a.nspace)).length ≤ t.length :=
            lengthDropWhileLe _ t
          have hg2 : P0.nsGrouped
              ((t.dropWhile (fun n => n.nspace = a.nspace)).map (fun n => n.nspace)) = true := by
            rw [P0.nsGrouped]
            rw [nsGroupedGo_fuel _ _ t.length (by simp) (by simp [hlentl])]
            exact hgo
          have hfeq : t.filter (fun n => n.nspace = a.nspace) =
              t.takeWhile (fun n => n.nspace = a.nspace) := by
            conv_lhs => rw [← hsplit]
            rw [List.filter_append]
            rw [List.filter_eq_self.mpr (fun n hn => by simpa using hrun n hn)]
            rw [List.filter_eq_nil_iff.mpr (fun n hn => by simpa using htl n hn)]
            rw [List.append_nil]
          have hfne : t.filter (fun n => ¬(n.nspace = a.nspace)) =
              t.dropWhile (fun n => n.nspace = a.nspace) := by
            conv_lhs => rw [← hsplit]
            rw [List.filter_append]
            rw [List.filter_eq_nil_iff.mpr (fun n hn => by simpa using hrun n hn)]
            rw [List.filter_eq_self.mpr (fun n hn => by simpa using htl n hn)]
            rw [List.nil_append]
          rw [dedup_flatMap_cons, hfeq, hfne]
          simp only [List.length_cons] at hl
          rw [ih _ (by omega) hg2]
          rw [List.cons_append, hsplit]

lemma nsRoundtrip_eq_of_grouped (l : List P0.FlatNode)
    (hnum : ∀ k ∈ l.map (fun n => n.nspace), isArrayIndexKey k = false)
    (hg : P0.nsGrouped (l.map (fun n => n.nspace)) = true) :
    P0.nsRoundtrip l = l := by
  rw [nsRoundtrip_canonical]
  rw [jsOwnKeys_eq_dedupKeys _ hnum]
  exact dedup_flatMap_eq_of_grouped l.length l (Nat.le_refl _) hg

/-- Claim C9 (corrected).  Grouping the flat tree by the `namespace`
field, stripping it, and re-flattening (re-attaching each bucket's key)
always reproduces the original flat tree up to reordering — the round
trip is a permutation that pulls each namespace's nodes together — but
not the original sequence in general.  Bucket order is the grouped
object's own-key enumeration order: array-index-like namespace keys
(canonical decimal strings below 2^32 - 1) come first in ascending
numeric order, the remaining namespaces follow in first-appearance
order.  The round trip is the identity when nodes with equal namespaces
are contiguous and no namespace is array-index-like; the last conjunct
shows that with contiguous numeric-string namespaces ("10" then "9") the
grouped object re-orders even a contiguous tree.  The third conjunct
ties the grouped output of `execute` to the grouping function on its
flattened state. -/
theorem c9_namespace_grouping_roundtrip :
    (∀ l : List P0.FlatNode, (P0.nsRoundtrip l).Perm l)
    ∧ (∀ l : List P0.FlatNode,
        (∀ k ∈ l.map (fun n => n.nspace), isArrayIndexKey k = false) →
        P0.nsGrouped (l.map (fun n => n.nspace)) = true →
        P0.nsRoundtrip l = l)
    ∧ (∀ (env : Web3Env) (cache : String → Abi) (sf : Bool) (rc : List String)
         (groups : List ContractGroup) (bh br : Nat),
        (P0.executeP0 env cache sf true rc groups bh br).grouped =
          P0.groupedOutput ((P0.executeP0 env cache sf true rc groups bh br).flatState))
    ∧ P0.nsRoundtrip [nodeNs10, nodeNs9] = [nodeNs9, nodeNs10] := by
  refine ⟨nsRoundtrip_perm, nsRoundtrip_eq_of_grouped, fun _ _ _ _ _ _ _ => rfl, by decide⟩

/-- Witness for C9: a contiguous non-numeric-namespace list round-trips
exactly, and the permutation statement applied to the interleaved demo
list. -/
theorem c9_witness :
    P0.nsRoundtrip [nodeNsA, nodeNsC, nodeNsB] = [nodeNsA, nodeNsC, nodeNsB]
    ∧ (P0.nsRoundtrip [nodeNsA, nodeNsB, nodeNsC]).Perm [nodeNsA, nodeNsB, nodeNsC] :=
  ⟨c9_namespace_grouping_roundtrip.2.1 [nodeNsA, nodeNsC, nodeNsB] (by decide) (by decide),
   c9_namespace_grouping_roundtrip.1 [nodeNsA, nodeNsB, nodeNsC]⟩

/-- Counterexample for C9 as stated: with namespaces interleaved
(x, y, x) the round trip returns the nodes in order (x, x, y) — a
permutation of the original, but not the original sequence. -/
theorem c9_counterexample :
    P0.nsRoundtrip [nodeNsA, nodeNsB, nodeNsC] = [nodeNsA, nodeNsC, nodeNsB]
    ∧ [nodeNsA, nodeNsC, nodeNsB] ≠ [nodeNsA, nodeNsB, nodeNsC] := by
  exact ⟨by decide, by decide⟩
